import Mathlib

/-!
Verification of the entity-extraction-and-dialogue-resolution engine of the
Revend-LLM-Api repository.

The Python sources under app/infrastructure/nlp/entity_extractor.py and
app/domain/services/{query_service,entity_service,session_service}.py are
embedded shallowly below.  Text is modelled as Lean String / List Char with
ASCII semantics: the regular expressions used by the source
(word boundary \b over the word class [A-Za-z0-9_], whitespace \s as the six
ASCII whitespace characters, \d as ASCII digits, case folding via
Char.toLower) are translated into specialised executable matchers that follow
the exact patterns compiled by the source.  The domain model classes Query,
Response and Session are imported by the services but their module is not part
of the source tree; they are modelled from the specification where noted.
-/

namespace Revend

/-- Character class of the regex word class \w (ASCII reading): letters,
digits and underscore. -/
def wordCharB (c : Char) : Bool := c.isAlphanum || c == '_'

/-- Character class of the regex whitespace class \s (ASCII reading). -/
def spaceCharB (c : Char) : Bool :=
  decide (c = ' ' ∨ c = '\t' ∨ c = '\n' ∨ c = '\r' ∨ c = '\x0b' ∨ c = '\x0c')

/-- The optional separator class [:#] of the order/invoice patterns. -/
def sepCharB (c : Char) : Bool := decide (c = ':' ∨ c = '#')

/-- Word-char test on an optional character; the absent character at either
end of the text counts as a non-word character for \b purposes. -/
def isWordOpt : Option Char → Bool
  | none => false
  | some c => wordCharB c

/-- Python substring containment (the in operator on str). -/
def substrB (w : List Char) : List Char → Bool
  | [] => w.isEmpty
  | c :: rest => w.isPrefixOf (c :: rest) || substrB w rest

/-- Python str.strip (ASCII whitespace reading). -/
def stripL (l : List Char) : List Char :=
  ((l.dropWhile spaceCharB).reverse.dropWhile spaceCharB).reverse

/-- Case-insensitive literal match at the head of the text: w is an already
lowercased pattern, the text characters are folded with Char.toLower.
Returns the remaining text after the literal on success. -/
def matchCI : List Char → List Char → Option (List Char)
  | [], s => some s
  | _ :: _, [] => none
  | a :: w, c :: s => if c.toLower == a then matchCI w s else none

/-- The glue \s*[:#]?\s* between the keyword and the digit run in the
order/invoice patterns.  Backtracking never helps for this fragment, so the
greedy one-pass consumption below is exact. -/
def skipSep (s : List Char) : List Char :=
  let s1 := s.dropWhile spaceCharB
  let s2 :=
    match s1 with
    | c :: r => if sepCharB c then r else s1
    | [] => s1
  s2.dropWhile spaceCharB

/-- After a keyword matched, consume \s*[:#]?\s*(\d+)\b and return the digit
run captured by the group, if the tail matches. -/
def numTail (rest : List Char) : Option (List Char) :=
  let rest2 := skipSep rest
  let ds := rest2.takeWhile Char.isDigit
  let rest3 := rest2.dropWhile Char.isDigit
  if ds.isEmpty then none
  else if isWordOpt rest3.head? then none
  else some ds

/-- The keyword alternation (?:pedido|order) of the order pattern, matched
case-insensitively at the head of the text. -/
def pedidoKwMatch (s : List Char) : Option (List Char) :=
  match matchCI "pedido".data s with
  | some r => some r
  | none => matchCI "order".data s

/-- The first alternative nota\s*fiscal of the invoice pattern: the literal
nota, greedy whitespace (backtracking never helps, fiscal starts with a
non-space character), then the literal fiscal. -/
def notaFiscalMatch (s : List Char) : Option (List Char) :=
  match matchCI "nota".data s with
  | some r1 => matchCI "fiscal".data (r1.dropWhile spaceCharB)
  | none => none

/-- The keyword alternation (?:nota\s*fiscal|nf) of the invoice pattern.  The
two alternatives are distinguished by the second character, so no cross
alternative backtracking can occur. -/
def nfKwMatch (s : List Char) : Option (List Char) :=
  match notaFiscalMatch s with
  | some r => some r
  | none => matchCI "nf".data s

/-- One attempt of the pattern (?i)\b(?:pedido|order)\s*[:#]?\s*(\d+)\b at a
fixed position; prev is the character before the position. -/
def pedidoAt (prev : Option Char) (s : List Char) : Option (List Char) :=
  if isWordOpt prev then none
  else
    match pedidoKwMatch s with
    | some r => numTail r
    | none => none

/-- One attempt of the pattern (?i)\b(?:nota\s*fiscal|nf)\s*[:#]?\s*(\d+)\b at
a fixed position. -/
def nfAt (prev : Option Char) (s : List Char) : Option (List Char) :=
  if isWordOpt prev then none
  else
    match nfKwMatch s with
    | some r => numTail r
    | none => none

/-- re.search: scan positions left to right, returning the first successful
attempt of the given single-position matcher. -/
def searchNumPat (att : Option Char → List Char → Option (List Char)) :
    Option Char → List Char → Option (List Char)
  | _, [] => none
  | prev, c :: rest =>
    match att prev (c :: rest) with
    | some ds => some ds
    | none => searchNumPat att (some c) rest

/-- Single-position test of re.search(r'\b' ++ w ++ r'\b') for a literal word
w made of word characters. -/
def wordAtB (w : List Char) (prev : Option Char) (s : List Char) : Bool :=
  !isWordOpt prev && w.isPrefixOf s && !isWordOpt (s.drop w.length).head?

/-- re.search of a whole-word literal: index of the first whole-word
occurrence, scanning left to right. -/
def findWordIdx (w : List Char) : Option Char → List Char → Nat → Option Nat
  | _, [], _ => none
  | prev, c :: rest, i =>
    if wordAtB w prev (c :: rest) then some i
    else findWordIdx w (some c) rest (i + 1)

/-- re.findall(r'\b\d+\b'): every standalone digit run, in text order. -/
def findAllNums : Option Char → List Char → List (List Char)
  | _, [] => []
  | prev, c :: rest =>
    let here : List (List Char) :=
      if c.isDigit && !isWordOpt prev then
        let ds := c :: rest.takeWhile Char.isDigit
        if isWordOpt (rest.dropWhile Char.isDigit).head? then [] else [ds]
      else []
    here ++ findAllNums (some c) rest

/-- Python str.find restricted to the successful case: index of the first
occurrence of w as a substring, none when absent. -/
def findSub (w : List Char) : List Char → Option Nat
  | [] => if w.isEmpty then some 0 else none
  | c :: rest =>
    if w.isPrefixOf (c :: rest) then some 0
    else (findSub w rest).map (· + 1)

/-- The per-turn entity map: the keys distribuidor, pedido, nota_fiscal of the
Python result dict, a key being absent exactly when its field is none. -/
structure EntityMap where
  distribuidor : Option String
  pedido : Option String
  nota_fiscal : Option String
  deriving DecidableEq

/-- The empty result dict. -/
def EntityMap.empty : EntityMap := ⟨none, none, none⟩

/-- Python truthiness test if not result on the result dict. -/
def EntityMap.isEmpty (m : EntityMap) : Bool :=
  m.distribuidor.isNone && m.pedido.isNone && m.nota_fiscal.isNone

/-- EntityExtractor.distribuidores_conhecidos: the fixed candidate list of the
heuristic distributor scan, in iteration order. -/
def distribuidores_conhecidos : List String :=
  ["officer", "ingram", "golden", "alcateia", "network1", "n1"]

/-- The distributor loop of EntityExtractor._fallback_extraction: for each
candidate in order, test substring containment in the lowercased text, then
search the first whole-word occurrence there; on a hit, slice the original
text at the found span, strip it, and stop.  A candidate contained as a
substring but never as a whole word does not stop the loop. -/
def findDistribuidorLoop : List String → List Char → List Char → Option (List Char)
  | [], _, _ => none
  | d :: ds, text, tl =>
    if substrB d.data tl then
      match findWordIdx d.data none tl 0 with
      | some i => some (stripL ((text.drop i).take d.data.length))
      | none => findDistribuidorLoop ds text tl
    else findDistribuidorLoop ds text tl

/-- The final loop of EntityExtractor._fallback_extraction over the standalone
digit runs found by re.findall, classifying each by the lowercased text before
its first substring occurrence (Python text.find). -/
def step4Loop (text : List Char) :
    List (List Char) → Option (List Char) → Option (List Char) →
    Option (List Char) × Option (List Char)
  | [], p, nf => (p, nf)
  | m :: rest, p, nf =>
    let pos := (findSub m text).getD 0
    let cb := (text.take pos).map Char.toLower
    if substrB "nota".data cb || substrB "fiscal".data cb || substrB "nf".data cb then
      step4Loop text rest p (some m)
    else if substrB "pedido".data cb || substrB "order".data cb then
      step4Loop text rest (some m) nf
    else if p.isNone then step4Loop text rest (some m) nf
    else step4Loop text rest p nf

/-- EntityExtractor._fallback_extraction: the heuristic tier.  Distributor by
whole-word candidate scan on the lowercased text; order number by the pattern
(?i)\b(?:pedido|order)\s*[:#]?\s*(\d+)\b on the original text; invoice number
by (?i)\b(?:nota\s*fiscal|nf)\s*[:#]?\s*(\d+)\b; when neither pattern hit,
the standalone-digit-run default pass. -/
def fallback_extraction (text : String) : EntityMap :=
  let t := text.data
  let tl := t.map Char.toLower
  let dOpt := findDistribuidorLoop distribuidores_conhecidos t tl
  let pOpt := searchNumPat pedidoAt none t
  let nOpt := searchNumPat nfAt none t
  let pn : Option (List Char) × Option (List Char) :=
    if pOpt.isNone && nOpt.isNone then step4Loop t (findAllNums none t) none none
    else (pOpt, nOpt)
  { distribuidor := dOpt.map String.mk
    pedido := pn.1.map String.mk
    nota_fiscal := pn.2.map String.mk }

/-- EntityExtractor._is_valid_number: strip the non-digits and require at
least one digit left. -/
def is_valid_number (s : String) : Bool :=
  decide (1 ≤ (s.data.filter Char.isDigit).length)

/-- EntityExtractor._clean_entity_text: str.strip. -/
def clean_entity_text (s : String) : String := String.mk (stripL s.data)

/-- Python str.lower (ASCII reading, per-character case folding). -/
def lowerS (s : String) : String := String.mk (s.data.map Char.toLower)

/-- EntityExtractor.is_distribuidor_suportado: empty means unsupported,
otherwise case-insensitive membership in the fixed supported set. -/
def distribuidores_suportados : List String := ["officer", "ingram", "golden"]

/-- Case-insensitive membership test of is_distribuidor_suportado. -/
def is_distribuidor_suportado (distribuidor : String) : Bool :=
  if distribuidor == "" then false
  else (distribuidores_suportados.map lowerS).contains (lowerS distribuidor)

/-- One detected entity of the NER pipeline.  The primary model fills word and
entity_group; the generic fallback model fills word, entity and start (these
are the dict keys each branch of the source reads). -/
structure Entity where
  word : String
  entity_group : String
  entity : String
  start : Nat
  deriving DecidableEq

/-- The label-mapping loop of EntityExtractor._process_entities, folded over
the detected entities into the result dict. -/
def process_entities_loop : List Entity → EntityMap → EntityMap
  | [], acc => acc
  | e :: rest, acc =>
    let g := e.entity_group.data.map Char.toUpper
    let acc :=
      if ["DISTRIBUIDOR", "ORG", "ORGANIZATION"].any (fun l => substrB l.data g) then
        { acc with distribuidor := some (clean_entity_text e.word) }
      else if ["PEDIDO", "ORDER"].any (fun l => substrB l.data g) then
        (if is_valid_number e.word then { acc with pedido := some (clean_entity_text e.word) }
         else acc)
      else if ["NOTA", "FISCAL", "INVOICE"].any (fun l => substrB l.data g) then
        (if is_valid_number e.word then { acc with nota_fiscal := some (clean_entity_text e.word) }
         else acc)
      else acc
    process_entities_loop rest acc

/-- EntityExtractor._process_entities: label mapping, then fall through to the
heuristic tier when the mapped result is empty. -/
def process_entities (entities : List Entity) (text : String) : EntityMap :=
  let result := process_entities_loop entities EntityMap.empty
  if result.isEmpty then fallback_extraction text else result

/-- The numeric-span loop of EntityExtractor._process_fallback_entities: each
valid numeric span is classified by scanning the lowercase text before its
start for keyword substrings, defaulting to pedido when unset. -/
def numFold (text : String) : List Entity → EntityMap → EntityMap
  | [], acc => acc
  | e :: rest, acc =>
    let acc :=
      if is_valid_number e.word then
        let cb := (text.data.take e.start).map Char.toLower
        if substrB "pedido".data cb || substrB "order".data cb then
          { acc with pedido := some (clean_entity_text e.word) }
        else if substrB "nota".data cb || substrB "fiscal".data cb || substrB "nf".data cb then
          { acc with nota_fiscal := some (clean_entity_text e.word) }
        else if acc.pedido.isNone then
          { acc with pedido := some (clean_entity_text e.word) }
        else acc
      else acc
    numFold text rest acc

/-- The context-scanning pass of EntityExtractor._process_fallback_entities
before its final empty check: first -ORG span as distributor, then the
numeric-span loop. -/
def process_fallback_core (entities : List Entity) (text : String) : EntityMap :=
  let result := EntityMap.empty
  let result :=
    match entities.filter (fun e => e.entity.endsWith "-ORG") with
    | [] => result
    | e :: _ => { result with distribuidor := some (clean_entity_text e.word) }
  let num_entities :=
    entities.filter (fun e => e.entity.endsWith "-CARDINAL" || e.entity.endsWith "-NUM")
  numFold text num_entities result

/-- EntityExtractor._process_fallback_entities: context scanning, then fall
through to the heuristic tier when the result is empty. -/
def process_fallback_entities (entities : List Entity) (text : String) : EntityMap :=
  let result := process_fallback_core entities text
  if result.isEmpty then fallback_extraction text else result

/-- The loaded NER pipeline as seen by extract_entities: a call either raises
(Except.error with the description of the exception) or returns the detected
entity dicts. -/
def NerPipeline : Type := String → Except String (List Entity)

/-- The state of an EntityExtractor instance read by extract_entities:
self.ner_pipeline (none when both model loads failed) and self.is_fallback. -/
structure EntityExtractor where
  ner_pipeline : Option NerPipeline
  is_fallback : Bool

/-- EntityExtractor.extract_entities as a state transformer: the method reads
self but never assigns any field of it, so the embedded method returns the
result map together with the (unchanged) instance state. -/
def extract_entities (self : EntityExtractor) (text : String) :
    EntityMap × EntityExtractor :=
  match self.ner_pipeline with
  | none => (fallback_extraction text, self)
  | some pl =>
    match pl text with
    | .error _ => (fallback_extraction text, self)
    | .ok entities =>
      if self.is_fallback then (process_fallback_entities entities text, self)
      else (process_entities entities text, self)

/-- Python truthiness of an optional string field (None and the empty string
are falsy). -/
def truthyO : Option String → Bool
  | none => false
  | some s => s != ""

/-- Modelled from the spec: the Query domain model (its module is not in the
source tree).  One turn: raw text, session identifier, its extracted Entity
Map, and convenience accessors exposing distribuidor, pedido, nota_fiscal. -/
structure Query where
  session_id : String
  query_text : String
  entities : EntityMap
  distribuidor : Option String
  pedido : Option String
  nota_fiscal : Option String
  deriving DecidableEq

/-- Modelled from the spec: Query.from_entities builds the turn object with
the accessors drawn from the extracted map. -/
def Query.from_entities (session_id query_text : String) (em : EntityMap) : Query :=
  ⟨session_id, query_text, em, em.distribuidor, em.pedido, em.nota_fiscal⟩

/-- Modelled from the spec: Query.is_valid — a turn is invalid exactly when
the distributor is absent or both the order number and the invoice number are
absent, so validity is distributor present and at least one identifier
present (Python truthiness). -/
def Query.is_valid (q : Query) : Bool :=
  truthyO q.distribuidor && (truthyO q.pedido || truthyO q.nota_fiscal)

/-- Modelled from the spec: Query.get_missing_fields lists which of the three
keys is absent. -/
def Query.get_missing_fields (q : Query) : List String :=
  (if truthyO q.distribuidor then [] else ["distribuidor"]) ++
  (if truthyO q.pedido then [] else ["pedido"]) ++
  (if truthyO q.nota_fiscal then [] else ["nota_fiscal"])

/-- Modelled from the spec: the Response status tag (the caller-facing set
{resolved, missing_info, error}). -/
inductive RespStatus where
  | resolved
  | missing_info
  | error
  deriving DecidableEq

/-- Modelled from the spec: the Response domain model (its module is not in
the source tree): outcome status, human-readable text, the resolved entity
values, optional missing-field list, optional error message, optional data
payload. -/
structure Resp where
  session_id : String
  query_text : String
  response_text : String
  status : RespStatus
  distribuidor : Option String
  pedido : Option String
  nota_fiscal : Option String
  missing_fields : Option (List String)
  error : Option String
  data : Option (List (String × String))
  deriving DecidableEq

/-- Modelled from the spec: Response.success (a resolved-status outcome). -/
def Resp.success (session_id query_text response_text : String)
    (distribuidor pedido nota_fiscal : Option String)
    (data : Option (List (String × String))) : Resp :=
  { session_id, query_text, response_text, status := .resolved,
    distribuidor, pedido, nota_fiscal, missing_fields := none, error := none, data }

/-- Modelled from the spec: the prompt text of a missing-information
Response. -/
def missing_info_text (fields : List String) : String :=
  "Preciso de mais informações: " ++ String.intercalate ", " fields

/-- Modelled from the spec: Response.missing_info. -/
def Resp.missing_info (session_id query_text : String) (missing_fields : List String)
    (distribuidor pedido nota_fiscal : Option String) : Resp :=
  { session_id, query_text, response_text := missing_info_text missing_fields,
    status := .missing_info, distribuidor, pedido, nota_fiscal,
    missing_fields := some missing_fields, error := none, data := none }

/-- Modelled from the spec: Response.error (named errorResp here because the
record already has an error field). -/
def Resp.errorResp (session_id query_text error_message : String) : Resp :=
  { session_id, query_text, response_text := error_message, status := .error,
    distribuidor := none, pedido := none, nota_fiscal := none,
    missing_fields := none, error := some error_message, data := none }

/-- Modelled from the spec: dict-style key update on the Conversation Context
(Session.update_context writes context[key] = value). -/
def ctxSet : List (String × String) → String → String → List (String × String)
  | [], k, v => [(k, v)]
  | (k1, v1) :: rest, k, v =>
    if k1 == k then (k, v) :: rest else (k1, v1) :: ctxSet rest k v

/-- Modelled from the spec: the Session domain model (its module is not in
the source tree): identifier, optional user, the Conversation Context and the
append-only interaction history. -/
structure Session where
  session_id : String
  user_id : Option String
  context : List (String × String)
  history : List (String × String × EntityMap)
  active : Bool
  deriving DecidableEq

/-- Modelled from the spec: Session.update_context. -/
def Session.update_context (s : Session) (k v : String) : Session :=
  { s with context := ctxSet s.context k v }

/-- Modelled from the spec: Session.add_to_history appends the turn record
(query text, response text, entities at that turn). -/
def Session.add_to_history (s : Session) (query response : String) (entities : EntityMap) :
    Session :=
  { s with history := s.history ++ [(query, response, entities)] }

/-- EntityService.enrich_query_from_context.  The Python method assigns the
missing fields of the passed-in Query object in place and returns that same
object, so the embedded method returns the pair (final state of the passed-in
object, returned object) — both are the same updated record. -/
def enrich_query_from_context (query : Query) (context : List (String × String)) :
    Query × Query :=
  let query :=
    if !truthyO query.distribuidor then
      match context.lookup "distribuidor" with
      | some v =>
        { query with distribuidor := some v,
                     entities := { query.entities with distribuidor := some v } }
      | none => query
    else query
  let query :=
    if !truthyO query.pedido then
      match context.lookup "pedido" with
      | some v =>
        { query with pedido := some v,
                     entities := { query.entities with pedido := some v } }
      | none => query
    else query
  let query :=
    if !truthyO query.nota_fiscal then
      match context.lookup "nota_fiscal" with
      | some v =>
        { query with nota_fiscal := some v,
                     entities := { query.entities with nota_fiscal := some v } }
      | none => query
    else query
  (query, query)

/-- SessionService.add_interaction: load the session (the repository is the
external store, passed as a lookup function), append the turn to history,
write each truthy entity of the turn into the Conversation Context, and
return the updated session (the repository update returns its argument). -/
def add_interaction (get_session : String → Option Session) (session_id : String)
    (query : Query) (response : Resp) : Option Session :=
  match get_session session_id with
  | none => none
  | some session =>
    let session := session.add_to_history query.query_text response.response_text query.entities
    let session :=
      if truthyO query.distribuidor then
        session.update_context "distribuidor" (query.distribuidor.getD "")
      else session
    let session :=
      if truthyO query.pedido then
        session.update_context "pedido" (query.pedido.getD "")
      else session
    let session :=
      if truthyO query.nota_fiscal then
        session.update_context "nota_fiscal" (query.nota_fiscal.getD "")
      else session
    some session

/-- The external collaborators of QueryService.process_query.  Each call can
raise (Except.error carries the description of the exception): the session
lookup and creation (SessionService over the pluggable store), the entity
extraction producing the entity map of the turn
(EntityService.process_query), and the history append
(SessionService.add_interaction against the store). -/
structure Collab where
  get_session : String → Except String (Option Session)
  create_session : Except String Session
  extract_entities : String → Except String EntityMap
  add_interaction : String → Query → Resp → Except String (Option Session)

/-- The four terminal outcome states of a turn (spec glossary). -/
inductive Outcome where
  | unsupported
  | missing_info
  | resolved
  | error
  deriving DecidableEq

/-- The decline message of the unsupported-distributor branch of
QueryService.process_query. -/
def unsupported_text (q : Query) : String :=
  "Desculpe, atualmente não trabalhamos com o distribuidor " ++
  q.distribuidor.getD "" ++
  ". Os distribuidores suportados são: Officer, Ingram e Golden."

/-- QueryService._generate_mock_response. -/
def generate_mock_response (q : Query) : String :=
  let distribuidor :=
    if truthyO q.distribuidor then q.distribuidor.getD ""
    else "distribuidor não especificado"
  if truthyO q.pedido then
    "O pedido " ++ q.pedido.getD "" ++ " do distribuidor " ++ distribuidor ++
    " está em processamento. A previsão de entrega é para 5 dias úteis."
  else if truthyO q.nota_fiscal then
    "A nota fiscal " ++ q.nota_fiscal.getD "" ++ " do distribuidor " ++ distribuidor ++
    " foi emitida e o produto está em trânsito. A previsão de entrega é para 3 dias úteis."
  else
    "Não foi possível identificar informações suficientes para processar sua consulta."

/-- The data payload attached by the resolved branch. -/
def mock_data : List (String × String) :=
  [("consulted_at", "2023-06-15T10:30:00"), ("source", "mock")]

/-- The branch-selection spine of QueryService.process_query applied to the
post-merge query: unsupported distributor first, then missing information,
otherwise resolved — evaluated in this order, first match terminal. -/
def turn_state (q : Query) : Outcome :=
  if truthyO q.distribuidor && !is_distribuidor_suportado (q.distribuidor.getD "") then
    .unsupported
  else if !q.is_valid then .missing_info
  else .resolved

/-- The response each branch of QueryService.process_query builds, as a
function of the post-merge query (its session_id and query_text fields are
the ones the branch uses). -/
def branch_resp (q : Query) : Resp :=
  match turn_state q with
  | .unsupported =>
    Resp.success q.session_id q.query_text (unsupported_text q)
      q.distribuidor q.pedido q.nota_fiscal none
  | .missing_info =>
    Resp.missing_info q.session_id q.query_text q.get_missing_fields
      q.distribuidor q.pedido q.nota_fiscal
  | _ =>
    Resp.success q.session_id q.query_text (generate_mock_response q)
      q.distribuidor q.pedido q.nota_fiscal (some mock_data)

/-- The extraction-plus-merge step of QueryService.process_query: build the
turn Query from the extracted entities, then enrich it from the session
context (the returned, mutated object). -/
def merged_query (sid query_text : String) (em : EntityMap)
    (ctx : List (String × String)) : Query :=
  (enrich_query_from_context (Query.from_entities sid query_text em) ctx).2

/-- The tail each branch of QueryService.process_query shares: append the
interaction to the session history, then return the query and response (an
exception of the append propagates to the outer handler). -/
def append_and_return (c : Collab) (sid : String) (query : Query) (response : Resp) :
    Except (String × String) (Query × Resp × List (String × Query × Resp)) :=
  match c.add_interaction sid query response with
  | .error e => .error (sid, e)
  | .ok _ => .ok (query, response, [(sid, query, response)])

/-- The if/elif/else spine of QueryService.process_query on the post-merge
query: unsupported distributor, then missing information, then the resolved
mock answer. -/
def pq_branch (c : Collab) (query : Query) (sid query_text : String) :
    Except (String × String) (Query × Resp × List (String × Query × Resp)) :=
  if truthyO query.distribuidor &&
      !is_distribuidor_suportado (query.distribuidor.getD "") then
    append_and_return c sid query
      (Resp.success sid query_text (unsupported_text query)
        query.distribuidor query.pedido query.nota_fiscal none)
  else if !query.is_valid then
    append_and_return c sid query
      (Resp.missing_info sid query_text query.get_missing_fields
        query.distribuidor query.pedido query.nota_fiscal)
  else
    append_and_return c sid query
      (Resp.success sid query_text (generate_mock_response query)
        query.distribuidor query.pedido query.nota_fiscal (some mock_data))

/-- The part of the try block after the session is resolved: extract, merge,
branch. -/
def pq_main (c : Collab) (session : Session) (sid query_text : String) :
    Except (String × String) (Query × Resp × List (String × Query × Resp)) :=
  match c.extract_entities query_text with
  | .error e => .error (sid, e)
  | .ok em => pq_branch c (merged_query sid query_text em session.context) sid query_text

/-- The body of the try block of QueryService.process_query.  On error the
payload carries the session_id variable at the point of failure (the except
block reads the current binding, which the create-session branch rebinds to
the new session identifier) together with the exception description.  The
third component of the result lists the add_interaction calls made. -/
def pq_pipeline (c : Collab) (session_id query_text : String) :
    Except (String × String) (Query × Resp × List (String × Query × Resp)) :=
  match c.get_session session_id with
  | .error e => .error (session_id, e)
  | .ok (some s) => pq_main c s session_id query_text
  | .ok none =>
    match c.create_session with
    | .error e => .error (session_id, e)
    | .ok s => pq_main c s s.session_id query_text

/-- The f-string of the except block of QueryService.process_query. -/
def pq_error_msg (e : String) : String :=
  "Ocorreu um erro ao processar sua consulta: " ++ e

/-- The minimal Query the except block builds for the error record (the other
fields of the Query constructor default to absent). -/
def error_query_of (sid query_text : String) : Query :=
  { session_id := sid, query_text := query_text, entities := EntityMap.empty,
    distribuidor := none, pedido := none, nota_fiscal := none }

/-- QueryService.process_query: run the pipeline; on any exception build the
error Response carrying the exception description, build a minimal Query for
the record, attempt to append the failed turn to the session history (the
result of that attempt — success or secondary exception — is discarded), and
return the error outcome to the caller. -/
def process_query (c : Collab) (session_id query_text : String) :
    Query × Resp × List (String × Query × Resp) :=
  match pq_pipeline c session_id query_text with
  | .ok out => out
  | .error (sid, e) =>
    let error_response := Resp.errorResp sid query_text (pq_error_msg e)
    let error_query := error_query_of sid query_text
    let _attempt := c.add_interaction sid error_query error_response
    (error_query, error_response, [(sid, error_query, error_response)])

/-! ### Helper lemmas -/

theorem truthyO_iff {o : Option String} :
    truthyO o = true ↔ ∃ s, o = some s ∧ s ≠ "" := by
  cases o with
  | none => simp [truthyO]
  | some s => simp [truthyO]

theorem lookup_ctxSet_self (ctx : List (String × String)) (k v : String) :
    (ctxSet ctx k v).lookup k = some v := by
  induction ctx with
  | nil => simp [ctxSet, List.lookup]
  | cons p rest ih =>
    obtain ⟨k1, v1⟩ := p
    by_cases h : k1 = k
    · subst h; simp [ctxSet, List.lookup]
    · have hb : (k1 == k) = false := beq_eq_false_iff_ne.mpr h
      have hb2 : (k == k1) = false := beq_eq_false_iff_ne.mpr (Ne.symm h)
      simp [ctxSet, List.lookup, hb, hb2, ih]

theorem lookup_ctxSet_ne (ctx : List (String × String)) (k v k1 : String)
    (h : k1 ≠ k) : (ctxSet ctx k v).lookup k1 = ctx.lookup k1 := by
  induction ctx with
  | nil => simp [ctxSet, List.lookup, beq_eq_false_iff_ne.mpr h]
  | cons p rest ih =>
    obtain ⟨k2, v2⟩ := p
    by_cases h2 : k2 = k
    · subst h2
      simp [ctxSet, List.lookup, beq_eq_false_iff_ne.mpr h]
    · have hb : (k2 == k) = false := beq_eq_false_iff_ne.mpr h2
      by_cases h3 : k1 = k2
      · subst h3; simp [ctxSet, List.lookup, hb]
      · simp [ctxSet, List.lookup, hb, beq_eq_false_iff_ne.mpr h3, ih]

theorem enrich_projections (q : Query) (ctx : List (String × String)) :
    (enrich_query_from_context q ctx).2.session_id = q.session_id ∧
    (enrich_query_from_context q ctx).2.query_text = q.query_text := by
  unfold enrich_query_from_context
  cases truthyO q.distribuidor <;> cases hld : ctx.lookup "distribuidor" <;>
    cases hp : truthyO q.pedido <;> cases hlp : ctx.lookup "pedido" <;>
      cases hn : truthyO q.nota_fiscal <;> cases hln : ctx.lookup "nota_fiscal" <;>
        simp_all

theorem merged_query_projections (sid qt : String) (em : EntityMap)
    (ctx : List (String × String)) :
    (merged_query sid qt em ctx).session_id = sid ∧
    (merged_query sid qt em ctx).query_text = qt := by
  have h := enrich_projections (Query.from_entities sid qt em) ctx
  exact ⟨h.1, h.2⟩

theorem append_and_return_ok {c : Collab} {sid : String} {query : Query}
    {response : Resp} {q : Query} {r : Resp} {tr : List (String × Query × Resp)}
    (h : append_and_return c sid query response = .ok (q, r, tr)) :
    q = query ∧ r = response ∧ tr = [(sid, query, response)] := by
  unfold append_and_return at h
  cases ha : c.add_interaction sid query response with
  | error e => rw [ha] at h; simp at h
  | ok so =>
    rw [ha] at h
    injection h with h1
    injection h1 with hq h2
    injection h2 with hr ht
    exact ⟨hq.symm, hr.symm, ht.symm⟩

theorem pq_branch_ok {c : Collab} {query : Query} {sid qt : String}
    {q : Query} {r : Resp} {tr : List (String × Query × Resp)}
    (hsid : query.session_id = sid) (hqt : query.query_text = qt)
    (h : pq_branch c query sid qt = .ok (q, r, tr)) :
    q = query ∧ r = branch_resp q ∧ tr = [(sid, q, r)] := by
  unfold pq_branch at h
  by_cases h1 : (truthyO query.distribuidor &&
      !is_distribuidor_suportado (query.distribuidor.getD "")) = true
  · rw [if_pos h1] at h
    obtain ⟨hq, hr, ht⟩ := append_and_return_ok h
    subst hq
    refine ⟨rfl, ?_, by rw [ht, hr]⟩
    rw [hr]
    unfold branch_resp turn_state
    rw [if_pos h1, hsid, hqt]
  · rw [if_neg h1] at h
    by_cases h2 : (!query.is_valid) = true
    · rw [if_pos h2] at h
      obtain ⟨hq, hr, ht⟩ := append_and_return_ok h
      subst hq
      refine ⟨rfl, ?_, by rw [ht, hr]⟩
      rw [hr]
      unfold branch_resp turn_state
      rw [if_neg h1, if_pos h2, hsid, hqt]
    · rw [if_neg h2] at h
      obtain ⟨hq, hr, ht⟩ := append_and_return_ok h
      subst hq
      refine ⟨rfl, ?_, by rw [ht, hr]⟩
      rw [hr]
      unfold branch_resp turn_state
      rw [if_neg h1, if_neg h2, hsid, hqt]

theorem pq_main_ok {c : Collab} {session : Session} {sid qt : String}
    {q : Query} {r : Resp} {tr : List (String × Query × Resp)}
    (h : pq_main c session sid qt = .ok (q, r, tr)) :
    q.session_id = sid ∧ q.query_text = qt ∧ r = branch_resp q ∧
    tr = [(sid, q, r)] := by
  unfold pq_main at h
  cases he : c.extract_entities qt with
  | error e => rw [he] at h; simp at h
  | ok em =>
    rw [he] at h
    obtain ⟨hs, ht⟩ := merged_query_projections sid qt em session.context
    obtain ⟨hq, hr, htr⟩ := pq_branch_ok hs ht h
    subst hq
    exact ⟨hs, ht, hr, htr⟩

theorem pq_pipeline_ok {c : Collab} {session_id qt : String}
    {q : Query} {r : Resp} {tr : List (String × Query × Resp)}
    (h : pq_pipeline c session_id qt = .ok (q, r, tr)) :
    q.query_text = qt ∧ r = branch_resp q ∧ tr = [(q.session_id, q, r)] := by
  unfold pq_pipeline at h
  cases hg : c.get_session session_id with
  | error e => rw [hg] at h; simp at h
  | ok sessOpt =>
    rw [hg] at h
    cases sessOpt with
    | some s =>
      obtain ⟨hs, ht, hr, htr⟩ := pq_main_ok h
      exact ⟨ht, hr, by rw [htr, hs]⟩
    | none =>
      cases hc : c.create_session with
      | error e => rw [hc] at h; simp at h
      | ok s =>
        rw [hc] at h
        obtain ⟨hs, ht, hr, htr⟩ := pq_main_ok h
        exact ⟨ht, hr, by rw [htr, hs]⟩

/-! ### Claims -/

/-- C1: for every turn whose (possibly context-supplied) distributor equals
alcateia case-insensitively and whose order number is set, process_query
assigns the unsupported outcome — never missing_info and never resolved —
regardless of the other fields, and the pipeline returns the
unsupported-branch decline Response for such a turn. -/
theorem C1_alcateia_always_unsupported :
    ∀ (q : Query) (d : String),
      q.distribuidor = some d → lowerS d = "alcateia" → truthyO q.pedido = true →
      turn_state q = Outcome.unsupported ∧
      turn_state q ≠ Outcome.missing_info ∧
      turn_state q ≠ Outcome.resolved ∧
      (∀ (c : Collab) (sid qt : String) (r : Resp) (tr : List (String × Query × Resp)),
        pq_pipeline c sid qt = .ok (q, r, tr) →
        r = Resp.success q.session_id q.query_text (unsupported_text q)
              q.distribuidor q.pedido q.nota_fiscal none ∧
        r.status ≠ RespStatus.missing_info ∧ r.missing_fields = none ∧ r.data = none) := by
  intro q d hd hlow _hped
  have hne : d ≠ "" := by
    intro h
    subst h
    exact absurd hlow (by decide)
  have hset : truthyO q.distribuidor = true := by
    rw [hd]
    simp [truthyO, hne]
  have hsup : is_distribuidor_suportado (q.distribuidor.getD "") = false := by
    rw [hd]
    simp only [Option.getD_some]
    unfold is_distribuidor_suportado
    rw [if_neg (by simp [hne])]
    rw [show (distribuidores_suportados.map lowerS) = ["officer", "ingram", "golden"] from by decide]
    rw [hlow]
    decide
  have hcond : (truthyO q.distribuidor &&
      !is_distribuidor_suportado (q.distribuidor.getD "")) = true := by
    rw [hset, hsup]
    rfl
  have hts : turn_state q = Outcome.unsupported := by
    unfold turn_state
    rw [if_pos hcond]
  refine ⟨hts, by rw [hts]; simp, by rw [hts]; simp, ?_⟩
  intro c sid qt r tr hpq
  obtain ⟨_, hr, _⟩ := pq_pipeline_ok hpq
  have hrb : r = Resp.success q.session_id q.query_text (unsupported_text q)
      q.distribuidor q.pedido q.nota_fiscal none := by
    rw [hr]
    unfold branch_resp
    rw [hts]
  refine ⟨hrb, ?_, ?_, ?_⟩ <;> rw [hrb] <;> simp [Resp.success]

/-- Concrete turn for the C1 witness: distributor Alcateia (from the turn or
context) with an order number present. -/
def q_c1 : Query :=
  { session_id := "s1", query_text := "pedido 999 na Alcateia",
    entities := ⟨some "Alcateia", some "999", none⟩,
    distribuidor := some "Alcateia", pedido := some "999", nota_fiscal := none }

theorem C1_witness : turn_state q_c1 = Outcome.unsupported :=
  (C1_alcateia_always_unsupported q_c1 "Alcateia" rfl (by decide) (by decide)).1

/-- C2: the turn-outcome state machine on the post-merge query is total and
mutually exclusive over {unsupported, missing_info, resolved}, tested in that
order with the first match terminal; missing_info holds exactly when the
distributor is absent or both identifiers are absent (and the unsupported
test did not already fire), and a set-but-unsupported distributor yields
unsupported even when both identifiers are missing; every successful
pipeline run returns exactly the response of the selected state. -/
theorem C2_state_machine_total_exclusive :
    (∀ q : Query,
      (turn_state q = Outcome.unsupported ∨ turn_state q = Outcome.missing_info ∨
        turn_state q = Outcome.resolved) ∧
      (turn_state q = Outcome.unsupported ↔
        (truthyO q.distribuidor = true ∧
         is_distribuidor_suportado (q.distribuidor.getD "") = false)) ∧
      (turn_state q = Outcome.missing_info ↔
        (¬(truthyO q.distribuidor = true ∧
            is_distribuidor_suportado (q.distribuidor.getD "") = false) ∧
         (truthyO q.distribuidor = false ∨
          (truthyO q.pedido = false ∧ truthyO q.nota_fiscal = false)))) ∧
      (turn_state q = Outcome.resolved ↔
        (¬(truthyO q.distribuidor = true ∧
            is_distribuidor_suportado (q.distribuidor.getD "") = false) ∧
         truthyO q.distribuidor = true ∧
         (truthyO q.pedido = true ∨ truthyO q.nota_fiscal = true))) ∧
      ((truthyO q.distribuidor = true ∧
        is_distribuidor_suportado (q.distribuidor.getD "") = false ∧
        truthyO q.pedido = false ∧ truthyO q.nota_fiscal = false) →
        turn_state q = Outcome.unsupported)) ∧
    (∀ (c : Collab) (sid qt : String) (q : Query) (r : Resp)
        (tr : List (String × Query × Resp)),
      pq_pipeline c sid qt = .ok (q, r, tr) → r = branch_resp q) := by
  constructor
  · intro q
    unfold turn_state Query.is_valid
    cases hd : truthyO q.distribuidor <;>
      cases hs : is_distribuidor_suportado (q.distribuidor.getD "") <;>
        cases hp : truthyO q.pedido <;>
          cases hn : truthyO q.nota_fiscal <;>
            simp
  · intro c sid qt q r tr h
    exact (pq_pipeline_ok h).2.1

/-- Concrete post-merge turn for the C2 witness: a supported distributor with
no identifier, exercising the unsupported-priority conjunct vacuously and the
missing_info characterisation concretely. -/
def q_c2 : Query :=
  { session_id := "s2", query_text := "fale da Alcateia",
    entities := ⟨some "Alcateia", none, none⟩,
    distribuidor := some "Alcateia", pedido := none, nota_fiscal := none }

theorem C2_witness : turn_state q_c2 = Outcome.unsupported :=
  ((C2_state_machine_total_exclusive.1 q_c2).2.2.2.2)
    ⟨by decide, by decide, by decide, by decide⟩

theorem isSome_lookup_ctxSet (ctx : List (String × String)) (k0 v0 k : String)
    (h : (ctx.lookup k).isSome = true) :
    ((ctxSet ctx k0 v0).lookup k).isSome = true := by
  by_cases hk : k = k0
  · subst hk
    rw [lookup_ctxSet_self]
    rfl
  · rw [lookup_ctxSet_ne _ _ _ _ hk]
    exact h

theorem add_interaction_lookup (get : String → Option Session) (sid : String)
    (S : Session) (q : Query) (r : Resp) (hget : get sid = some S) :
    ∃ S1, add_interaction get sid q r = some S1 ∧
      S1.context.lookup "distribuidor" =
        (if truthyO q.distribuidor then some (q.distribuidor.getD "")
         else S.context.lookup "distribuidor") ∧
      S1.context.lookup "pedido" =
        (if truthyO q.pedido then some (q.pedido.getD "")
         else S.context.lookup "pedido") ∧
      S1.context.lookup "nota_fiscal" =
        (if truthyO q.nota_fiscal then some (q.nota_fiscal.getD "")
         else S.context.lookup "nota_fiscal") ∧
      (∀ k, k ≠ "distribuidor" → k ≠ "pedido" → k ≠ "nota_fiscal" →
        S1.context.lookup k = S.context.lookup k) ∧
      ((truthyO q.distribuidor = false ∧ truthyO q.pedido = false ∧
        truthyO q.nota_fiscal = false) → S1.context = S.context) := by
  unfold add_interaction
  rw [hget]
  refine ⟨_, rfl, ?_, ?_, ?_, ?_, ?_⟩ <;>
    cases hdt : truthyO q.distribuidor <;>
      cases hpt : truthyO q.pedido <;>
        cases hnt : truthyO q.nota_fiscal <;>
          simp only [Session.update_context, Session.add_to_history, if_true, if_false,
            Bool.false_eq_true, ite_false, ite_true] <;>
          first
          | (intro k h1 h2 h3
             rw [lookup_ctxSet_ne _ _ _ _ h3, lookup_ctxSet_ne _ _ _ _ h2,
               lookup_ctxSet_ne _ _ _ _ h1])
          | (intro k h1 h2 h3
             first
             | rw [lookup_ctxSet_ne _ _ _ _ h3, lookup_ctxSet_ne _ _ _ _ h2]
             | rw [lookup_ctxSet_ne _ _ _ _ h3, lookup_ctxSet_ne _ _ _ _ h1]
             | rw [lookup_ctxSet_ne _ _ _ _ h2, lookup_ctxSet_ne _ _ _ _ h1]
             | rw [lookup_ctxSet_ne _ _ _ _ h3]
             | rw [lookup_ctxSet_ne _ _ _ _ h2]
             | rw [lookup_ctxSet_ne _ _ _ _ h1]
             | rfl)
          | (first
             | rfl
             | (intro h
                simp_all)
             | (rw [lookup_ctxSet_self])
             | (rw [lookup_ctxSet_ne _ _ _ _ (by decide), lookup_ctxSet_self])
             | (rw [lookup_ctxSet_ne _ _ _ _ (by decide),
                 lookup_ctxSet_ne _ _ _ _ (by decide), lookup_ctxSet_self])
             | (rw [lookup_ctxSet_ne _ _ _ _ (by decide),
                 lookup_ctxSet_ne _ _ _ _ (by decide)])
             | (rw [lookup_ctxSet_ne _ _ _ _ (by decide)]))

/-- C3: the per-turn context update of add_interaction is additive: a turn
with no truthy entity leaves the context unchanged, no key already present in
the context is ever removed, and a key changes only when the newest turn
carries a non-empty value for that same key, in which case the new value is
exactly that non-empty value. -/
theorem C3_context_merge_additive :
    ∀ (get : String → Option Session) (sid : String) (S : Session) (q : Query) (r : Resp),
      get sid = some S →
      ∃ S1, add_interaction get sid q r = some S1 ∧
        ((truthyO q.distribuidor = false ∧ truthyO q.pedido = false ∧
          truthyO q.nota_fiscal = false) → S1.context = S.context) ∧
        (∀ k v, S.context.lookup k = some v → (S1.context.lookup k).isSome = true) ∧
        (∀ k, S1.context.lookup k ≠ S.context.lookup k →
          (k = "distribuidor" ∧ ∃ s, q.distribuidor = some s ∧ s ≠ "" ∧
            S1.context.lookup k = some s) ∨
          (k = "pedido" ∧ ∃ s, q.pedido = some s ∧ s ≠ "" ∧
            S1.context.lookup k = some s) ∨
          (k = "nota_fiscal" ∧ ∃ s, q.nota_fiscal = some s ∧ s ≠ "" ∧
            S1.context.lookup k = some s)) := by
  intro get sid S q r hget
  obtain ⟨S1, hS1, hd, hp, hn, hother, hempty⟩ :=
    add_interaction_lookup get sid S q r hget
  refine ⟨S1, hS1, hempty, ?_, ?_⟩
  · intro k v hkv
    by_cases h1 : k = "distribuidor"
    · subst h1
      rw [hd]
      split <;> simp [hkv]
    · by_cases h2 : k = "pedido"
      · subst h2
        rw [hp]
        split <;> simp [hkv]
      · by_cases h3 : k = "nota_fiscal"
        · subst h3
          rw [hn]
          split <;> simp [hkv]
        · rw [hother k h1 h2 h3, hkv]
          rfl
  · intro k hk
    by_cases h1 : k = "distribuidor"
    · subst h1
      left
      refine ⟨rfl, ?_⟩
      rw [hd] at hk ⊢
      cases hdt : truthyO q.distribuidor
      · rw [hdt] at hk
        simp at hk
      · obtain ⟨s, hs, hne⟩ := truthyO_iff.mp hdt
        exact ⟨s, hs, hne, by simp [hdt, hs]⟩
    · by_cases h2 : k = "pedido"
      · subst h2
        right; left
        refine ⟨rfl, ?_⟩
        rw [hp] at hk ⊢
        cases hpt : truthyO q.pedido
        · rw [hpt] at hk
          simp at hk
        · obtain ⟨s, hs, hne⟩ := truthyO_iff.mp hpt
          exact ⟨s, hs, hne, by simp [hpt, hs]⟩
      · by_cases h3 : k = "nota_fiscal"
        · subst h3
          right; right
          refine ⟨rfl, ?_⟩
          rw [hn] at hk ⊢
          cases hnt : truthyO q.nota_fiscal
          · rw [hnt] at hk
            simp at hk
          · obtain ⟨s, hs, hne⟩ := truthyO_iff.mp hnt
            exact ⟨s, hs, hne, by simp [hnt, hs]⟩
        · exact absurd (hother k h1 h2 h3) hk

/-- Concrete session and turn for the C3 witness: a context holding a
distributor, merged with a turn carrying only an order number. -/
def sess_c3 : Session :=
  { session_id := "s3", user_id := none,
    context := [("distribuidor", "Officer")], history := [], active := true }

/-- Turn used by the C3 witness. -/
def q_c3 : Query :=
  { session_id := "s3", query_text := "pedido 123",
    entities := ⟨none, some "123", none⟩,
    distribuidor := none, pedido := some "123", nota_fiscal := none }

/-- Response used by the C3 witness. -/
def r_c3 : Resp :=
  Resp.success "s3" "pedido 123" "ok" none (some "123") none none

theorem C3_witness :
    ∃ S1, add_interaction (fun _ => some sess_c3) "s3" q_c3 r_c3 = some S1 ∧
      (S1.context.lookup "distribuidor").isSome = true := by
  obtain ⟨S1, hS1, _, hkeep, _⟩ :=
    C3_context_merge_additive (fun _ => some sess_c3) "s3" sess_c3 q_c3 r_c3 rfl
  exact ⟨S1, hS1, hkeep "distribuidor" "Officer" (by decide)⟩

/-- Concrete input showing that enrich_query_from_context does not leave the
passed-in Query unchanged: a turn without a distributor merged with a context
that has one. -/
def q_c4 : Query :=
  { session_id := "s4", query_text := "e o pedido 77?",
    entities := ⟨none, some "77", none⟩,
    distribuidor := none, pedido := some "77", nota_fiscal := none }

/-- Context used for the C4 counterexample. -/
def ctx_c4 : List (String × String) := [("distribuidor", "Officer")]

/-- C4 counterexample: the method mutates the Query object passed in (its
state after the call differs from its state before), refuting the claim that
the passed-in Query is left unchanged while a copy is returned. -/
theorem C4_counterexample :
    (enrich_query_from_context q_c4 ctx_c4).1 ≠ q_c4 ∧
    (enrich_query_from_context q_c4 ctx_c4).1 =
      (enrich_query_from_context q_c4 ctx_c4).2 := by
  constructor
  · decide
  · rfl

/-- C4 amended: enrich_query_from_context fills each of the three keys from
the session context when and only when the turn left that key unset (and the
context has it), never overwrites a truthy value the current turn produced,
and touches nothing else; however it performs the updates on the Query object
passed in and returns that same object — the final state of the passed-in
object and the returned Query coincide. -/
theorem C4_enrich_fills_iff_unset :
    ∀ (q : Query) (ctx : List (String × String)),
      (enrich_query_from_context q ctx).1 = (enrich_query_from_context q ctx).2 ∧
      (enrich_query_from_context q ctx).2.distribuidor =
        (if truthyO q.distribuidor then q.distribuidor
         else
           match ctx.lookup "distribuidor" with
           | some v => some v
           | none => q.distribuidor) ∧
      (enrich_query_from_context q ctx).2.pedido =
        (if truthyO q.pedido then q.pedido
         else
           match ctx.lookup "pedido" with
           | some v => some v
           | none => q.pedido) ∧
      (enrich_query_from_context q ctx).2.nota_fiscal =
        (if truthyO q.nota_fiscal then q.nota_fiscal
         else
           match ctx.lookup "nota_fiscal" with
           | some v => some v
           | none => q.nota_fiscal) ∧
      (enrich_query_from_context q ctx).2.session_id = q.session_id ∧
      (enrich_query_from_context q ctx).2.query_text = q.query_text := by
  intro q ctx
  unfold enrich_query_from_context
  cases hd : truthyO q.distribuidor <;> cases hld : ctx.lookup "distribuidor" <;>
    cases hp : truthyO q.pedido <;> cases hlp : ctx.lookup "pedido" <;>
      cases hn : truthyO q.nota_fiscal <;> cases hln : ctx.lookup "nota_fiscal" <;>
        simp_all

theorem isPrefixOf_append_self (w t : List Char) : w.isPrefixOf (w ++ t) = true := by
  induction w with
  | nil => simp [List.isPrefixOf]
  | cons a w ih => simp [List.isPrefixOf, ih]

theorem substrB_of_prefixOf_drop (w : List Char) :
    ∀ (j : Nat) (l : List Char), w.isPrefixOf (l.drop j) = true → substrB w l = true := by
  intro j
  induction j with
  | zero =>
    intro l h
    cases l with
    | nil =>
      simp only [List.drop] at h
      cases w with
      | nil => rfl
      | cons a w => simp [List.isPrefixOf] at h
    | cons c rest =>
      rw [List.drop_zero] at h
      unfold substrB
      rw [h, Bool.true_or]
  | succ j ih =>
    intro l h
    cases l with
    | nil =>
      simp only [List.drop] at h
      cases w with
      | nil => rfl
      | cons a w => simp [List.isPrefixOf] at h
    | cons c rest =>
      have h2 : substrB w rest = true := ih rest h
      unfold substrB
      rw [h2, Bool.or_true]

theorem isPrefixOf_self (w : List Char) : w.isPrefixOf w = true := by
  induction w with
  | nil => rfl
  | cons a w ih => simp [List.isPrefixOf, ih]

theorem substrB_append_right (p w : List Char) : substrB w (p ++ w) = true := by
  apply substrB_of_prefixOf_drop w p.length
  rw [List.drop_left]
  exact isPrefixOf_self w

/-- C6: whenever the pipeline raises, process_query returns (instead of
raising) the error Response whose message contains the exception description;
the failed turn is still handed to add_interaction (the single entry of the
attempt trace), and the outcome does not depend on whether that append itself
fails — the append result is discarded by construction, as the returned value
below is fixed for every collaborator add_interaction behaviour. -/
theorem C6_unexpected_failure_error_outcome :
    ∀ (c : Collab) (session_id query_text s e : String),
      pq_pipeline c session_id query_text = .error (s, e) →
      process_query c session_id query_text =
        (error_query_of s query_text,
         Resp.errorResp s query_text (pq_error_msg e),
         [(s, error_query_of s query_text, Resp.errorResp s query_text (pq_error_msg e))]) ∧
      (Resp.errorResp s query_text (pq_error_msg e)).status = RespStatus.error ∧
      (Resp.errorResp s query_text (pq_error_msg e)).error = some (pq_error_msg e) ∧
      substrB e.data (pq_error_msg e).data = true := by
  intro c session_id query_text s e h
  refine ⟨?_, rfl, rfl, ?_⟩
  · unfold process_query
    rw [h]
  · show substrB e.data ("Ocorreu um erro ao processar sua consulta: " ++ e).data = true
    have hd : ("Ocorreu um erro ao processar sua consulta: " ++ e).data =
        "Ocorreu um erro ao processar sua consulta: ".data ++ e.data := rfl
    rw [hd]
    exact substrB_append_right _ _

/-- Collaborators whose session lookup raises, for the C6 witness; the
history append also fails, exercising the swallowed secondary exception. -/
def collab_c6 : Collab :=
  { get_session := fun _ => .error "conexão recusada",
    create_session := .error "indisponível",
    extract_entities := fun _ => .ok EntityMap.empty,
    add_interaction := fun _ _ _ => .error "armazenamento fora do ar" }

theorem C6_witness :
    (process_query collab_c6 "s6" "oi").2.1.status = RespStatus.error ∧
    (process_query collab_c6 "s6" "oi").2.2 =
      [("s6", error_query_of "s6" "oi",
        Resp.errorResp "s6" "oi" (pq_error_msg "conexão recusada"))] := by
  obtain ⟨h1, h2, _, _⟩ :=
    C6_unexpected_failure_error_outcome collab_c6 "s6" "oi" "s6" "conexão recusada" rfl
  rw [h1]
  exact ⟨h2, rfl⟩

/-- C5: with a loaded pipeline, an inference exception on a call makes
exactly that call return the heuristic result on the same text; an empty map
from the label-mapping pass (primary model) or the context-scanning pass
(generic model) does the same; no exception reaches the caller and the
extractor state is unchanged, so any later call behaves as if the failing
call had not happened. -/
theorem C5_inference_failure_degrades_to_heuristic :
    ∀ (st : EntityExtractor) (pl : NerPipeline) (text : String),
      st.ner_pipeline = some pl →
      ((∀ msg, pl text = .error msg →
          extract_entities st text = (fallback_extraction text, st)) ∧
       (∀ ents, pl text = .ok ents → st.is_fallback = false →
          (process_entities_loop ents EntityMap.empty).isEmpty = true →
          extract_entities st text = (fallback_extraction text, st)) ∧
       (∀ ents, pl text = .ok ents → st.is_fallback = true →
          (process_fallback_core ents text).isEmpty = true →
          extract_entities st text = (fallback_extraction text, st)) ∧
       (extract_entities st text).2 = st ∧
       (∀ t2, extract_entities (extract_entities st text).2 t2 = extract_entities st t2)) := by
  intro st pl text hpl
  obtain ⟨op, fb⟩ := st
  have hop : op = some pl := hpl
  subst hop
  have hstate : (extract_entities ⟨some pl, fb⟩ text).2 = (⟨some pl, fb⟩ : EntityExtractor) := by
    unfold extract_entities
    cases hres : pl text with
    | error msg => simp [hres]
    | ok ents => cases fb <;> simp [hres]
  refine ⟨?_, ?_, ?_, hstate, fun t2 => by rw [hstate]⟩
  · intro msg hmsg
    simp [extract_entities, hmsg]
  · intro ents hok hfb hempty
    have : fb = false := hfb
    subst this
    simp [extract_entities, hok, process_entities, hempty]
  · intro ents hok hfb hempty
    have : fb = true := hfb
    subst this
    simp [extract_entities, hok, process_fallback_entities, hempty]

/-- A pipeline whose inference always raises, for the C5 witness. -/
def pl_c5 : NerPipeline := fun _ => .error "falha de inferência"

/-- Extractor state holding the failing pipeline for the C5 witness. -/
def ext_c5 : EntityExtractor := { ner_pipeline := some pl_c5, is_fallback := false }

theorem C5_witness :
    extract_entities ext_c5 "pedido 42 na Officer" =
      (fallback_extraction "pedido 42 na Officer", ext_c5) :=
  ((C5_inference_failure_degrades_to_heuristic ext_c5 pl_c5
      "pedido 42 na Officer" rfl).1) "falha de inferência" rfl

/-- C7: the heuristic extractor is a total function of its input text — every
call returns an entity map (never an exception), equal texts give equal maps,
and the map may be empty when nothing matches. -/
theorem C7_heuristic_total_deterministic :
    (∀ t : String, ∃ m : EntityMap, fallback_extraction t = m) ∧
    (∀ t1 t2 : String, t1 = t2 → fallback_extraction t1 = fallback_extraction t2) ∧
    fallback_extraction "" = EntityMap.empty := by
  refine ⟨fun t => ⟨_, rfl⟩, fun t1 t2 h => by rw [h], ?_⟩
  decide

theorem C7_witness :
    fallback_extraction "bom dia" = fallback_extraction "bom dia" :=
  C7_heuristic_total_deterministic.2.1 "bom dia" "bom dia" rfl

/-! ### Scanning lemmas for the regex matchers -/

/-- The character preceding the current scan position after consuming a
chunk: the last character of the chunk, or the inherited predecessor when the
chunk is empty. -/
def lastPrevO (prev : Option Char) : List Char → Option Char
  | [] => prev
  | c :: rest => lastPrevO (some c) rest

/-- Every attempt of a single-position matcher fails throughout a chunk
(with the given following text, so attempts may look past the chunk). -/
def attFailsB (att : Option Char → List Char → Option (List Char)) :
    Option Char → List Char → List Char → Bool
  | _, [], _ => true
  | prev, c :: pre, rest =>
    (att prev (c :: (pre ++ rest))).isNone && attFailsB att (some c) pre rest

theorem searchNumPat_skip (att : Option Char → List Char → Option (List Char)) :
    ∀ (pre : List Char) (prev : Option Char) (rest : List Char),
      attFailsB att prev pre rest = true →
      searchNumPat att prev (pre ++ rest) = searchNumPat att (lastPrevO prev pre) rest := by
  intro pre
  induction pre with
  | nil => intro prev rest _; rfl
  | cons c pre ih =>
    intro prev rest h
    unfold attFailsB at h
    rw [Bool.and_eq_true] at h
    obtain ⟨h1, h2⟩ := h
    have h1x : att prev (c :: (pre ++ rest)) = none := Option.eq_none_of_isNone h1
    have hstep : searchNumPat att prev (c :: (pre ++ rest)) =
        searchNumPat att (some c) (pre ++ rest) := by
      simp only [searchNumPat, h1x]
    calc searchNumPat att prev ((c :: pre) ++ rest)
        = searchNumPat att (some c) (pre ++ rest) := hstep
      _ = searchNumPat att (lastPrevO (some c) pre) rest := ih (some c) rest h2

theorem searchNumPat_cons_some {att : Option Char → List Char → Option (List Char)}
    {prev : Option Char} {c : Char} {rest ds : List Char}
    (h : att prev (c :: rest) = some ds) :
    searchNumPat att prev (c :: rest) = some ds := by
  unfold searchNumPat
  rw [h]

/-! ### Character class lemmas -/

theorem digit_not_space {c : Char} (h : c.isDigit = true) : spaceCharB c = false := by
  cases hsp : spaceCharB c with
  | false => rfl
  | true =>
    exfalso
    rcases of_decide_eq_true hsp with h1 | h1 | h1 | h1 | h1 | h1 <;>
      subst h1 <;> exact absurd h (by decide)

theorem digit_not_sep {c : Char} (h : c.isDigit = true) : sepCharB c = false := by
  cases hsp : sepCharB c with
  | false => rfl
  | true =>
    exfalso
    rcases of_decide_eq_true hsp with h1 | h1 <;>
      subst h1 <;> exact absurd h (by decide)

theorem digit_word {c : Char} (h : c.isDigit = true) : wordCharB c = true := by
  unfold wordCharB Char.isAlphanum
  rw [h]
  simp

theorem space_toLower {c : Char} (h : spaceCharB c = true) : c.toLower = c := by
  rcases of_decide_eq_true h with h1 | h1 | h1 | h1 | h1 | h1 <;> subst h1 <;> decide

/-! ### takeWhile and dropWhile lemmas -/

theorem dropWhile_append_all {p : Char → Bool} (xs ys : List Char)
    (h : ∀ c ∈ xs, p c = true) :
    (xs ++ ys).dropWhile p = ys.dropWhile p := by
  induction xs with
  | nil => rfl
  | cons c xs ih =>
    have hc : p c = true := h c (List.mem_cons_self c xs)
    show ((c :: (xs ++ ys)).dropWhile p) = _
    rw [List.dropWhile_cons_of_pos hc]
    exact ih fun d hd => h d (List.mem_cons_of_mem c hd)

theorem dropWhile_cons_neg {p : Char → Bool} {c : Char} (l : List Char)
    (h : p c = false) : (c :: l).dropWhile p = c :: l :=
  List.dropWhile_cons_of_neg (by rw [h]; simp)

theorem takeWhile_append_stop {p : Char → Bool} (xs ys : List Char)
    (hx : ∀ c ∈ xs, p c = true) (hy : ∀ c, ys.head? = some c → p c = false) :
    (xs ++ ys).takeWhile p = xs := by
  induction xs with
  | nil =>
    cases ys with
    | nil => rfl
    | cons c ys =>
      show (c :: ys).takeWhile p = []
      rw [List.takeWhile_cons_of_neg (by rw [hy c rfl]; simp)]
  | cons c xs ih =>
    have hc : p c = true := hx c (List.mem_cons_self c xs)
    show ((c :: (xs ++ ys)).takeWhile p) = c :: xs
    rw [List.takeWhile_cons_of_pos hc]
    rw [ih fun d hd => hx d (List.mem_cons_of_mem c hd)]

theorem dropWhile_append_stop {p : Char → Bool} (xs ys : List Char)
    (hx : ∀ c ∈ xs, p c = true) (hy : ∀ c, ys.head? = some c → p c = false) :
    (xs ++ ys).dropWhile p = ys := by
  rw [dropWhile_append_all xs ys hx]
  cases ys with
  | nil => rfl
  | cons c ys => exact dropWhile_cons_neg ys (hy c rfl)

/-! ### matchCI lemmas -/

theorem matchCI_append (kw : List Char) :
    ∀ (w rest : List Char), kw.map Char.toLower = w →
      matchCI w (kw ++ rest) = some rest := by
  induction kw with
  | nil =>
    intro w rest h
    rw [← h]
    rfl
  | cons c kw ih =>
    intro w rest h
    rw [← h]
    show matchCI (c.toLower :: kw.map Char.toLower) (c :: (kw ++ rest)) = some rest
    unfold matchCI
    rw [if_pos (by simp)]
    exact ih _ rest rfl

/-! ### Positive-match lemmas for the order and invoice patterns -/

theorem skipSep_shape (ws1 sep ws2 digits post : List Char)
    (hws1 : ∀ c ∈ ws1, spaceCharB c = true) (hws2 : ∀ c ∈ ws2, spaceCharB c = true)
    (hsep : sep = [] ∨ sep = [':'] ∨ sep = ['#'])
    (hdne : digits ≠ []) (hdig : ∀ c ∈ digits, c.isDigit = true) :
    skipSep (ws1 ++ (sep ++ (ws2 ++ (digits ++ post)))) = digits ++ post := by
  obtain ⟨d, digits2, rfl⟩ : ∃ d digits2, digits = d :: digits2 := by
    cases digits with
    | nil => exact absurd rfl hdne
    | cons d ds => exact ⟨d, ds, rfl⟩
  have hd : d.isDigit = true := hdig d (List.mem_cons_self d digits2)
  have hdns : spaceCharB d = false := digit_not_space hd
  have hdnp : sepCharB d = false := digit_not_sep hd
  unfold skipSep
  rcases hsep with h | h | h <;> subst h <;>
    simp only [List.nil_append, List.singleton_append, List.cons_append]
  · have h1 : ((ws1 ++ (ws2 ++ (d :: (digits2 ++ post)))).dropWhile spaceCharB) =
        d :: (digits2 ++ post) := by
      rw [dropWhile_append_all _ _ hws1, dropWhile_append_all _ _ hws2]
      exact dropWhile_cons_neg _ hdns
    rw [h1]
    simp only [hdnp, Bool.false_eq_true, if_false]
    rw [dropWhile_cons_neg _ hdns]
  · have h1 : ((ws1 ++ (':' :: (ws2 ++ (d :: (digits2 ++ post))))).dropWhile spaceCharB) =
        ':' :: (ws2 ++ (d :: (digits2 ++ post))) := by
      rw [dropWhile_append_all _ _ hws1]
      exact dropWhile_cons_neg _ (by decide)
    rw [h1]
    simp only [show sepCharB ':' = true from by decide, if_true]
    rw [dropWhile_append_all _ _ hws2, dropWhile_cons_neg _ hdns]
  · have h1 : ((ws1 ++ ('#' :: (ws2 ++ (d :: (digits2 ++ post))))).dropWhile spaceCharB) =
        '#' :: (ws2 ++ (d :: (digits2 ++ post))) := by
      rw [dropWhile_append_all _ _ hws1]
      exact dropWhile_cons_neg _ (by decide)
    rw [h1]
    simp only [show sepCharB '#' = true from by decide, if_true]
    rw [dropWhile_append_all _ _ hws2, dropWhile_cons_neg _ hdns]

theorem post_head_not_digit {post : List Char} (hpost : isWordOpt post.head? = false) :
    ∀ c, post.head? = some c → c.isDigit = false := by
  intro c hc
  rw [hc] at hpost
  cases hd : c.isDigit with
  | false => rfl
  | true => exact absurd hpost (by simp [isWordOpt, digit_word hd])

theorem numTail_pos (ws1 sep ws2 digits post : List Char)
    (hws1 : ∀ c ∈ ws1, spaceCharB c = true) (hws2 : ∀ c ∈ ws2, spaceCharB c = true)
    (hsep : sep = [] ∨ sep = [':'] ∨ sep = ['#'])
    (hdne : digits ≠ []) (hdig : ∀ c ∈ digits, c.isDigit = true)
    (hpost : isWordOpt post.head? = false) :
    numTail (ws1 ++ (sep ++ (ws2 ++ (digits ++ post)))) = some digits := by
  have hempty : digits.isEmpty = false := by
    cases digits with
    | nil => exact absurd rfl hdne
    | cons a l => rfl
  unfold numTail
  rw [skipSep_shape ws1 sep ws2 digits post hws1 hws2 hsep hdne hdig]
  simp only [takeWhile_append_stop digits post hdig (post_head_not_digit hpost),
    dropWhile_append_stop digits post hdig (post_head_not_digit hpost),
    hempty, hpost, Bool.false_eq_true, if_false]

theorem matchCI_pedido_of_order {kw rest : List Char}
    (h : kw.map Char.toLower = "order".data) :
    matchCI "pedido".data (kw ++ rest) = none := by
  cases kw with
  | nil => simp at h
  | cons k kw2 =>
    rw [List.map_cons] at h
    have hk : k.toLower = 'o' := by
      have := congrArg (fun l => l.head?) h
      simpa using this
    show matchCI ('p' :: "edido".data) (k :: (kw2 ++ rest)) = none
    unfold matchCI
    rw [if_neg (by rw [hk]; decide)]

theorem pedidoKwMatch_pos {kw rest : List Char}
    (hkw : kw.map Char.toLower = "pedido".data ∨ kw.map Char.toLower = "order".data) :
    pedidoKwMatch (kw ++ rest) = some rest := by
  unfold pedidoKwMatch
  rcases hkw with h | h
  · rw [matchCI_append kw _ rest h]
  · rw [matchCI_pedido_of_order h, matchCI_append kw _ rest h]

theorem pedidoAt_pos (prev : Option Char) (kw ws1 sep ws2 digits post : List Char)
    (hprev : isWordOpt prev = false)
    (hkw : kw.map Char.toLower = "pedido".data ∨ kw.map Char.toLower = "order".data)
    (hws1 : ∀ c ∈ ws1, spaceCharB c = true) (hws2 : ∀ c ∈ ws2, spaceCharB c = true)
    (hsep : sep = [] ∨ sep = [':'] ∨ sep = ['#'])
    (hdne : digits ≠ []) (hdig : ∀ c ∈ digits, c.isDigit = true)
    (hpost : isWordOpt post.head? = false) :
    pedidoAt prev (kw ++ (ws1 ++ (sep ++ (ws2 ++ (digits ++ post))))) = some digits := by
  unfold pedidoAt
  rw [if_neg (by rw [hprev]; simp)]
  rw [pedidoKwMatch_pos hkw]
  exact numTail_pos ws1 sep ws2 digits post hws1 hws2 hsep hdne hdig hpost

theorem notaFiscalMatch_pos {nw wsf fw rest : List Char}
    (hn : nw.map Char.toLower = "nota".data)
    (hws : ∀ c ∈ wsf, spaceCharB c = true)
    (hf : fw.map Char.toLower = "fiscal".data) :
    notaFiscalMatch (nw ++ (wsf ++ (fw ++ rest))) = some rest := by
  obtain ⟨f, fw2, rfl⟩ : ∃ f fw2, fw = f :: fw2 := by
    cases fw with
    | nil => simp at hf
    | cons f fw2 => exact ⟨f, fw2, rfl⟩
  have hfl : f.toLower = 'f' := by
    rw [List.map_cons] at hf
    have := congrArg (fun l => l.head?) hf
    simpa using this
  have hfs : spaceCharB f = false := by
    cases hs : spaceCharB f with
    | false => rfl
    | true =>
      exfalso
      have := space_toLower hs
      rw [this] at hfl
      subst hfl
      exact absurd hs (by decide)
  unfold notaFiscalMatch
  rw [matchCI_append nw _ _ hn]
  show matchCI "fiscal".data ((wsf ++ (f :: (fw2 ++ rest))).dropWhile spaceCharB) = some rest
  rw [dropWhile_append_all _ _ hws]
  rw [dropWhile_cons_neg _ hfs]
  exact matchCI_append (f :: fw2) _ rest hf

theorem notaFiscalMatch_none_of_nf {kw rest : List Char}
    (h : kw.map Char.toLower = "nf".data) :
    notaFiscalMatch (kw ++ rest) = none := by
  obtain ⟨a, b, rfl⟩ : ∃ a b, kw = [a, b] := by
    cases kw with
    | nil => simp at h
    | cons a kw2 =>
      cases kw2 with
      | nil => simp at h
      | cons b kw3 =>
        cases kw3 with
        | nil => exact ⟨a, b, rfl⟩
        | cons x xs => simp at h
  have ha : a.toLower = 'n' := by
    have := congrArg (fun l => l.head?) h
    simpa using this
  have hb : b.toLower = 'f' := by
    have := congrArg (fun l => l.tail.head?) h
    simpa using this
  have hnota : matchCI "nota".data (a :: (b :: rest)) = none := by
    have e1 : matchCI "nota".data (a :: (b :: rest)) =
        if (a.toLower == 'n') = true then matchCI "ota".data (b :: rest) else none := rfl
    rw [e1, if_pos (by rw [ha]; decide)]
    have e2 : matchCI "ota".data (b :: rest) =
        if (b.toLower == 'o') = true then matchCI "ta".data rest else none := rfl
    rw [e2, if_neg (by rw [hb]; decide)]
  show notaFiscalMatch (a :: (b :: rest)) = none
  unfold notaFiscalMatch
  rw [hnota]

theorem nfKwMatch_pos {kw rest : List Char}
    (hkw : (∃ nw wsf fw, kw = nw ++ (wsf ++ fw) ∧ nw.map Char.toLower = "nota".data ∧
            (∀ c ∈ wsf, spaceCharB c = true) ∧ fw.map Char.toLower = "fiscal".data) ∨
           kw.map Char.toLower = "nf".data) :
    nfKwMatch (kw ++ rest) = some rest := by
  unfold nfKwMatch
  rcases hkw with ⟨nw, wsf, fw, rfl, hn, hws, hf⟩ | h
  · rw [show (nw ++ (wsf ++ fw)) ++ rest = nw ++ (wsf ++ (fw ++ rest)) by simp]
    rw [notaFiscalMatch_pos hn hws hf]
  · rw [notaFiscalMatch_none_of_nf h, matchCI_append kw _ rest h]

theorem nfAt_pos (prev : Option Char) (kw ws1 sep ws2 digits post : List Char)
    (hprev : isWordOpt prev = false)
    (hkw : (∃ nw wsf fw, kw = nw ++ (wsf ++ fw) ∧ nw.map Char.toLower = "nota".data ∧
            (∀ c ∈ wsf, spaceCharB c = true) ∧ fw.map Char.toLower = "fiscal".data) ∨
           kw.map Char.toLower = "nf".data)
    (hws1 : ∀ c ∈ ws1, spaceCharB c = true) (hws2 : ∀ c ∈ ws2, spaceCharB c = true)
    (hsep : sep = [] ∨ sep = [':'] ∨ sep = ['#'])
    (hdne : digits ≠ []) (hdig : ∀ c ∈ digits, c.isDigit = true)
    (hpost : isWordOpt post.head? = false) :
    nfAt prev (kw ++ (ws1 ++ (sep ++ (ws2 ++ (digits ++ post))))) = some digits := by
  unfold nfAt
  rw [if_neg (by rw [hprev]; simp)]
  rw [nfKwMatch_pos hkw]
  exact numTail_pos ws1 sep ws2 digits post hws1 hws2 hsep hdne hdig hpost

/-- No position inside the leading chunk starts a case-insensitive match of
pedido or order (attempts may look past the chunk into the following text):
the designated occurrence is the first one re.search can find. -/
def pedidoKwFreeB : List Char → List Char → Bool
  | [], _ => true
  | c :: pre, rest =>
    (matchCI "pedido".data (c :: (pre ++ rest))).isNone &&
    ((matchCI "order".data (c :: (pre ++ rest))).isNone && pedidoKwFreeB pre rest)

/-- No position inside the leading chunk starts a match of the invoice
keyword alternation. -/
def nfKwFreeB : List Char → List Char → Bool
  | [], _ => true
  | c :: pre, rest => (nfKwMatch (c :: (pre ++ rest))).isNone && nfKwFreeB pre rest

theorem attFailsB_pedido :
    ∀ (pre rest : List Char) (prev : Option Char),
      pedidoKwFreeB pre rest = true → attFailsB pedidoAt prev pre rest = true := by
  intro pre
  induction pre with
  | nil => intro rest prev _; rfl
  | cons c pre ih =>
    intro rest prev h
    unfold pedidoKwFreeB at h
    rw [Bool.and_eq_true, Bool.and_eq_true] at h
    obtain ⟨h1, h2, h3⟩ := h
    unfold attFailsB
    rw [Bool.and_eq_true]
    refine ⟨?_, ih rest (some c) h3⟩
    unfold pedidoAt
    by_cases hw : isWordOpt prev = true
    · rw [if_pos hw]; rfl
    · rw [if_neg hw]
      unfold pedidoKwMatch
      rw [Option.eq_none_of_isNone h1, Option.eq_none_of_isNone h2]
      rfl

theorem attFailsB_nf :
    ∀ (pre rest : List Char) (prev : Option Char),
      nfKwFreeB pre rest = true → attFailsB nfAt prev pre rest = true := by
  intro pre
  induction pre with
  | nil => intro rest prev _; rfl
  | cons c pre ih =>
    intro rest prev h
    unfold nfKwFreeB at h
    rw [Bool.and_eq_true] at h
    obtain ⟨h1, h2⟩ := h
    unfold attFailsB
    rw [Bool.and_eq_true]
    refine ⟨?_, ih rest (some c) h2⟩
    unfold nfAt
    by_cases hw : isWordOpt prev = true
    · rw [if_pos hw]; rfl
    · rw [if_neg hw]
      rw [Option.eq_none_of_isNone h1]
      rfl

theorem fallback_pedido_of_search {text : String} {ds : List Char}
    (h : searchNumPat pedidoAt none text.data = some ds) :
    (fallback_extraction text).pedido = some (String.mk ds) := by
  unfold fallback_extraction
  simp only [h]
  simp

theorem fallback_nf_of_search {text : String} {ds : List Char}
    (h : searchNumPat nfAt none text.data = some ds) :
    (fallback_extraction text).nota_fiscal = some (String.mk ds) := by
  unfold fallback_extraction
  simp only [h]
  simp

theorem fallback_dist_eq (text : String) :
    (fallback_extraction text).distribuidor =
      (findDistribuidorLoop distribuidores_conhecidos text.data
        (text.data.map Char.toLower)).map String.mk := by
  unfold fallback_extraction
  simp

/-- C8: for every text in which the first whole-word, case-insensitive
occurrence of pedido or order is followed (after optional spaces, an optional
colon or hash separator, and optional spaces) by a standalone digit run, the
heuristic extractor binds pedido to exactly that digit string; symmetrically
for nota fiscal (with optional internal whitespace) or nf and nota_fiscal. -/
theorem C8_patterns_capture_exact_digits :
    (∀ (text : String) (pre kw ws1 sep ws2 digits post : List Char),
      text.data = pre ++ (kw ++ (ws1 ++ (sep ++ (ws2 ++ (digits ++ post))))) →
      (kw.map Char.toLower = "pedido".data ∨ kw.map Char.toLower = "order".data) →
      isWordOpt (lastPrevO none pre) = false →
      (∀ c ∈ ws1, spaceCharB c = true) → (∀ c ∈ ws2, spaceCharB c = true) →
      (sep = [] ∨ sep = [':'] ∨ sep = ['#']) →
      digits ≠ [] → (∀ c ∈ digits, c.isDigit = true) →
      isWordOpt post.head? = false →
      pedidoKwFreeB pre (kw ++ (ws1 ++ (sep ++ (ws2 ++ (digits ++ post))))) = true →
      (fallback_extraction text).pedido = some (String.mk digits)) ∧
    (∀ (text : String) (pre kw ws1 sep ws2 digits post : List Char),
      text.data = pre ++ (kw ++ (ws1 ++ (sep ++ (ws2 ++ (digits ++ post))))) →
      ((∃ nw wsf fw, kw = nw ++ (wsf ++ fw) ∧ nw.map Char.toLower = "nota".data ∧
        (∀ c ∈ wsf, spaceCharB c = true) ∧ fw.map Char.toLower = "fiscal".data) ∨
       kw.map Char.toLower = "nf".data) →
      isWordOpt (lastPrevO none pre) = false →
      (∀ c ∈ ws1, spaceCharB c = true) → (∀ c ∈ ws2, spaceCharB c = true) →
      (sep = [] ∨ sep = [':'] ∨ sep = ['#']) →
      digits ≠ [] → (∀ c ∈ digits, c.isDigit = true) →
      isWordOpt post.head? = false →
      nfKwFreeB pre (kw ++ (ws1 ++ (sep ++ (ws2 ++ (digits ++ post))))) = true →
      (fallback_extraction text).nota_fiscal = some (String.mk digits)) := by
  constructor
  · intro text pre kw ws1 sep ws2 digits post hdecomp hkw hprev hws1 hws2 hsep hdne
      hdig hpost hfree
    obtain ⟨k, kw2, rfl⟩ : ∃ k kw2, kw = k :: kw2 := by
      cases kw with
      | nil => rcases hkw with h | h <;> simp at h
      | cons k kw2 => exact ⟨k, kw2, rfl⟩
    have hatt : pedidoAt (lastPrevO none pre)
        ((k :: kw2) ++ (ws1 ++ (sep ++ (ws2 ++ (digits ++ post))))) = some digits :=
      pedidoAt_pos _ _ _ _ _ _ _ hprev hkw hws1 hws2 hsep hdne hdig hpost
    apply fallback_pedido_of_search
    rw [hdecomp]
    rw [searchNumPat_skip pedidoAt pre none _ (attFailsB_pedido pre _ none hfree)]
    exact searchNumPat_cons_some hatt
  · intro text pre kw ws1 sep ws2 digits post hdecomp hkw hprev hws1 hws2 hsep hdne
      hdig hpost hfree
    obtain ⟨k, kw2, rfl⟩ : ∃ k kw2, kw = k :: kw2 := by
      cases kw with
      | nil =>
        rcases hkw with ⟨nw, wsf, fw, hk, hn, _, _⟩ | h
        · exfalso
          have : nw = [] := by
            cases nw with
            | nil => rfl
            | cons x xs => simp at hk
          subst this
          simp at hn
        · simp at h
      | cons k kw2 => exact ⟨k, kw2, rfl⟩
    have hatt : nfAt (lastPrevO none pre)
        ((k :: kw2) ++ (ws1 ++ (sep ++ (ws2 ++ (digits ++ post))))) = some digits :=
      nfAt_pos _ _ _ _ _ _ _ hprev hkw hws1 hws2 hsep hdne hdig hpost
    apply fallback_nf_of_search
    rw [hdecomp]
    rw [searchNumPat_skip nfAt pre none _ (attFailsB_nf pre _ none hfree)]
    exact searchNumPat_cons_some hatt

/-- C8 witness input: "Veja o Pedido #42 por favor" carries the first
keyword occurrence at index 7 with separator hash and digits 42. -/
def text_c8 : String := "Veja o Pedido #42 por favor"

theorem C8_witness : (fallback_extraction text_c8).pedido = some "42" := by
  have h := C8_patterns_capture_exact_digits.1 text_c8
    "Veja o ".data "Pedido".data [' '] ['#'] [] "42".data " por favor".data
    (by decide) (by decide) (by decide) (by decide) (by decide) (by decide)
    (by decide) (by decide) (by decide) (by decide)
  exact h

/-! ### Whole-word search lemmas for the distributor scan -/

theorem wordAtB_pos (w lb : List Char) (prev : Option Char)
    (hprev : isWordOpt prev = false) (hpost : isWordOpt lb.head? = false) :
    wordAtB w prev (w ++ lb) = true := by
  unfold wordAtB
  rw [hprev, isPrefixOf_append_self, List.drop_left, hpost]
  rfl

/-- No position inside the leading chunk carries a whole-word occurrence of
the literal w. -/
def wordHitFreeB (w : List Char) : Option Char → List Char → List Char → Bool
  | _, [], _ => true
  | prev, c :: pre, rest =>
    !wordAtB w prev (c :: (pre ++ rest)) && wordHitFreeB w (some c) pre rest

theorem findWordIdx_skip (w : List Char) :
    ∀ (pre : List Char) (prev : Option Char) (rest : List Char) (i : Nat),
      wordHitFreeB w prev pre rest = true →
      findWordIdx w prev (pre ++ rest) i =
        findWordIdx w (lastPrevO prev pre) rest (i + pre.length) := by
  intro pre
  induction pre with
  | nil => intro prev rest i _; rfl
  | cons c pre ih =>
    intro prev rest i h
    unfold wordHitFreeB at h
    rw [Bool.and_eq_true] at h
    obtain ⟨h1, h2⟩ := h
    have h1x : wordAtB w prev (c :: (pre ++ rest)) = false := by
      cases hx : wordAtB w prev (c :: (pre ++ rest)) with
      | false => rfl
      | true => rw [hx] at h1; exact absurd h1 (by decide)
    have hstep : findWordIdx w prev (c :: (pre ++ rest)) i =
        findWordIdx w (some c) (pre ++ rest) (i + 1) := by
      simp only [findWordIdx, h1x, Bool.false_eq_true, if_false]
    calc findWordIdx w prev ((c :: pre) ++ rest) i
        = findWordIdx w (some c) (pre ++ rest) (i + 1) := hstep
      _ = findWordIdx w (lastPrevO (some c) pre) rest (i + 1 + pre.length) :=
          ih (some c) rest (i + 1) h2
      _ = findWordIdx w (lastPrevO (some c) pre) rest (i + (c :: pre).length) := by
          rw [show i + 1 + pre.length = i + (c :: pre).length from by
            simp [List.length_cons]; omega]

theorem findWordIdx_cons_hit {w : List Char} {prev : Option Char} {c : Char}
    {rest : List Char} {i : Nat} (h : wordAtB w prev (c :: rest) = true) :
    findWordIdx w prev (c :: rest) i = some i := by
  simp only [findWordIdx, h, if_true]

theorem findWordIdx_mem (w : List Char) :
    ∀ (t : List Char) (prev : Option Char) (i j : Nat),
      findWordIdx w prev t i = some j →
      ∃ k, j = i + k ∧ w.isPrefixOf (t.drop k) = true := by
  intro t
  induction t with
  | nil => intro prev i j h; simp [findWordIdx] at h
  | cons c rest ih =>
    intro prev i j h
    by_cases hw : wordAtB w prev (c :: rest) = true
    · rw [findWordIdx_cons_hit hw] at h
      injection h with hj
      refine ⟨0, hj.symm, ?_⟩
      unfold wordAtB at hw
      rw [Bool.and_eq_true, Bool.and_eq_true] at hw
      exact hw.1.2
    · have hwf : wordAtB w prev (c :: rest) = false := by
        cases hx : wordAtB w prev (c :: rest) with
        | false => rfl
        | true => exact absurd hx hw
      rw [show findWordIdx w prev (c :: rest) i =
          findWordIdx w (some c) rest (i + 1) from by
        simp only [findWordIdx, hwf, Bool.false_eq_true, if_false]] at h
      obtain ⟨k, hk, hp⟩ := ih (some c) (i + 1) j h
      exact ⟨k + 1, by omega, hp⟩

theorem findWordIdx_isSome_of_decomp (w : List Char) (hwne : w ≠ []) :
    ∀ (la : List Char) (prev : Option Char) (lb : List Char) (i : Nat),
      isWordOpt (lastPrevO prev la) = false → isWordOpt lb.head? = false →
      (findWordIdx w prev (la ++ (w ++ lb)) i).isSome = true := by
  intro la
  induction la with
  | nil =>
    intro prev lb i hprev hpost
    obtain ⟨c, w2, rfl⟩ : ∃ c w2, w = c :: w2 := by
      cases w with
      | nil => exact absurd rfl hwne
      | cons c w2 => exact ⟨c, w2, rfl⟩
    rw [List.nil_append]
    have hat : wordAtB (c :: w2) prev (c :: (w2 ++ lb)) = true :=
      wordAtB_pos (c :: w2) lb prev hprev hpost
    show (findWordIdx (c :: w2) prev (c :: (w2 ++ lb)) i).isSome = true
    rw [findWordIdx_cons_hit hat]
    rfl
  | cons c la ih =>
    intro prev lb i hprev hpost
    by_cases hw : wordAtB w prev (c :: (la ++ (w ++ lb))) = true
    · rw [show (c :: la) ++ (w ++ lb) = c :: (la ++ (w ++ lb)) from rfl]
      rw [findWordIdx_cons_hit hw]
      rfl
    · have hwf : wordAtB w prev (c :: (la ++ (w ++ lb))) = false := by
        cases hx : wordAtB w prev (c :: (la ++ (w ++ lb))) with
        | false => rfl
        | true => exact absurd hx hw
      rw [show (c :: la) ++ (w ++ lb) = c :: (la ++ (w ++ lb)) from rfl]
      rw [show findWordIdx w prev (c :: (la ++ (w ++ lb))) i =
          findWordIdx w (some c) (la ++ (w ++ lb)) (i + 1) from by
        simp only [findWordIdx, hwf, Bool.false_eq_true, if_false]]
      exact ih (some c) lb (i + 1) hprev hpost

theorem take_len_of_isPrefixOf (w : List Char) :
    ∀ (l : List Char), w.isPrefixOf l = true → l.take w.length = w := by
  induction w with
  | nil => intro l _; rfl
  | cons a w ih =>
    intro l h
    cases l with
    | nil => simp [List.isPrefixOf] at h
    | cons b l =>
      unfold List.isPrefixOf at h
      rw [Bool.and_eq_true] at h
      obtain ⟨hab, hrec⟩ := h
      have hab2 : a = b := eq_of_beq hab
      subst hab2
      show (a :: l).take (w.length + 1) = a :: w
      rw [List.take_succ_cons, ih l hrec]

theorem stripL_eq_of_no_space (l : List Char)
    (h : ∀ c ∈ l, spaceCharB c = false) : stripL l = l := by
  unfold stripL
  have h1 : l.dropWhile spaceCharB = l := by
    cases l with
    | nil => rfl
    | cons c rest => exact dropWhile_cons_neg rest (h c (List.mem_cons_self c rest))
  rw [h1]
  have h2 : l.reverse.dropWhile spaceCharB = l.reverse := by
    cases hrev : l.reverse with
    | nil => rfl
    | cons c rest =>
      refine dropWhile_cons_neg rest (h c ?_)
      rw [← List.mem_reverse, hrev]
      exact List.mem_cons_self c rest
  rw [h2, List.reverse_reverse]

theorem no_space_of_lowers {slice w : List Char}
    (h : slice.map Char.toLower = w) (hw : ∀ x ∈ w, spaceCharB x = false) :
    ∀ c ∈ slice, spaceCharB c = false := by
  intro c hc
  cases hcs : spaceCharB c with
  | false => rfl
  | true =>
    exfalso
    have hlc : c.toLower = c := space_toLower hcs
    have hmem : c.toLower ∈ w := h ▸ List.mem_map_of_mem Char.toLower hc
    rw [hlc] at hmem
    exact absurd (hw c hmem) (by rw [hcs]; simp)

theorem findDistribuidorLoop_cons (d : String) (ds : List String) (text tl : List Char) :
    findDistribuidorLoop (d :: ds) text tl =
      if substrB d.data tl = true then
        match findWordIdx d.data none tl 0 with
        | some i => some (stripL ((text.drop i).take d.data.length))
        | none => findDistribuidorLoop ds text tl
      else findDistribuidorLoop ds text tl := rfl

theorem findDistribuidorLoop_skip (d : String) (ds : List String) (text tl : List Char)
    (h : findWordIdx d.data none tl 0 = none) :
    findDistribuidorLoop (d :: ds) text tl = findDistribuidorLoop ds text tl := by
  rw [findDistribuidorLoop_cons]
  by_cases hs : substrB d.data tl = true
  · rw [if_pos hs, h]
  · rw [if_neg hs]

theorem findDistribuidorLoop_hit (d : String) (ds : List String) (text tl : List Char)
    (j : Nat) (h : findWordIdx d.data none tl 0 = some j) :
    findDistribuidorLoop (d :: ds) text tl =
      some (stripL ((text.drop j).take d.data.length)) := by
  have hsub : substrB d.data tl = true := by
    obtain ⟨k, _, hp⟩ := findWordIdx_mem d.data tl none 0 j h
    exact substrB_of_prefixOf_drop d.data k tl hp
  rw [findDistribuidorLoop_cons]
  rw [if_pos hsub, h]

theorem loop_hit_lowered (d : String) (ds : List String) (text : String) (tl : List Char)
    (htl : tl = text.data.map Char.toLower) (j : Nat)
    (h : findWordIdx d.data none tl 0 = some j)
    (hdns : ∀ x ∈ d.data, spaceCharB x = false) :
    ∃ r : List Char,
      findDistribuidorLoop (d :: ds) text.data tl = some r ∧
      (∃ j2 n, r = (text.data.drop j2).take n) ∧ r.map Char.toLower = d.data := by
  obtain ⟨k, hk, hp⟩ := findWordIdx_mem d.data tl none 0 j h
  have hkj : k = j := by omega
  subst hkj
  have hslice : ((text.data.drop k).take d.data.length).map Char.toLower = d.data := by
    rw [List.map_take, List.map_drop, ← htl]
    exact take_len_of_isPrefixOf d.data _ hp
  have hstrip : stripL ((text.data.drop k).take d.data.length) =
      (text.data.drop k).take d.data.length :=
    stripL_eq_of_no_space _ (no_space_of_lowers hslice hdns)
  refine ⟨(text.data.drop k).take d.data.length, ?_, ⟨k, d.data.length, rfl⟩, hslice⟩
  rw [findDistribuidorLoop_hit d ds text.data tl k h, hstrip]

theorem loop_supported (text : String) (tl : List Char)
    (htl : tl = text.data.map Char.toLower)
    (hhit : (findWordIdx "officer".data none tl 0).isSome = true ∨
            (findWordIdx "ingram".data none tl 0).isSome = true ∨
            (findWordIdx "golden".data none tl 0).isSome = true) :
    ∃ r : List Char,
      findDistribuidorLoop distribuidores_conhecidos text.data tl = some r ∧
      (∃ j n, r = (text.data.drop j).take n) ∧
      (r.map Char.toLower = "officer".data ∨ r.map Char.toLower = "ingram".data ∨
       r.map Char.toLower = "golden".data) := by
  unfold distribuidores_conhecidos
  cases h1 : findWordIdx "officer".data none tl 0 with
  | some j =>
    obtain ⟨r, hr, hs, hl⟩ := loop_hit_lowered "officer" _ text tl htl j h1 (by decide)
    exact ⟨r, hr, hs, Or.inl hl⟩
  | none =>
    rw [findDistribuidorLoop_skip _ _ _ _ h1]
    cases h2 : findWordIdx "ingram".data none tl 0 with
    | some j =>
      obtain ⟨r, hr, hs, hl⟩ := loop_hit_lowered "ingram" _ text tl htl j h2 (by decide)
      exact ⟨r, hr, hs, Or.inr (Or.inl hl)⟩
    | none =>
      rw [findDistribuidorLoop_skip _ _ _ _ h2]
      cases h3 : findWordIdx "golden".data none tl 0 with
      | some j =>
        obtain ⟨r, hr, hs, hl⟩ := loop_hit_lowered "golden" _ text tl htl j h3 (by decide)
        exact ⟨r, hr, hs, Or.inr (Or.inr hl)⟩
      | none =>
        exfalso
        rcases hhit with hx | hx | hx
        · rw [h1] at hx; exact absurd hx (by decide)
        · rw [h2] at hx; exact absurd hx (by decide)
        · rw [h3] at hx; exact absurd hx (by decide)

/-- Model pipeline for the C9 counterexample: the primary model detects only
an order-number entity on the input text. -/
def pl_c9 : NerPipeline :=
  fun _ => .ok [{ word := "112233", entity_group := "PEDIDO", entity := "", start := 0 }]

/-- Extractor running the primary model of the C9 counterexample. -/
def ext_c9 : EntityExtractor := { ner_pipeline := some pl_c9, is_fallback := false }

/-- Input text of the C9 counterexample: it contains the supported
distributor officer as a whole word. -/
def text_c9 : String := "pedido 112233 na Officer"

/-- C9 counterexample: on a text containing the supported name officer as a
whole word, the primary-model tier returns an entity map whose distributor
key is absent (its label mapping saw only an order entity, and the non-empty
result suppresses the heuristic fall-through), refuting the claim for the
model tiers. -/
theorem C9_counterexample :
    (∃ la lb, text_c9.data.map Char.toLower = la ++ ("officer".data ++ lb) ∧
      isWordOpt (lastPrevO none la) = false ∧ isWordOpt lb.head? = false) ∧
    (extract_entities ext_c9 text_c9).1.distribuidor = none ∧
    (fallback_extraction text_c9).distribuidor = some "Officer" := by
  refine ⟨⟨"pedido 112233 na ".data, [], by decide, by decide, by decide⟩, ?_, ?_⟩
  · decide
  · decide

/-- Shared heuristic-tier guarantee: a supported-name whole-word occurrence
makes the fallback extractor bind a slice of the original text lowering to a
supported candidate. -/
theorem fallback_supported_occurrence (text : String) (la lb sup : List Char)
    (hsup : sup = "officer".data ∨ sup = "ingram".data ∨ sup = "golden".data)
    (hdecomp : text.data.map Char.toLower = la ++ (sup ++ lb))
    (hprev : isWordOpt (lastPrevO none la) = false)
    (hpost : isWordOpt lb.head? = false) :
    ∃ rl : List Char,
      (fallback_extraction text).distribuidor = some (String.mk rl) ∧
      (∃ j n, rl = (text.data.drop j).take n) ∧
      (rl.map Char.toLower = "officer".data ∨ rl.map Char.toLower = "ingram".data ∨
       rl.map Char.toLower = "golden".data) := by
  have hhit : (findWordIdx "officer".data none (text.data.map Char.toLower) 0).isSome = true ∨
      (findWordIdx "ingram".data none (text.data.map Char.toLower) 0).isSome = true ∨
      (findWordIdx "golden".data none (text.data.map Char.toLower) 0).isSome = true := by
    rcases hsup with h | h | h <;> subst h
    · refine Or.inl ?_
      rw [hdecomp]
      exact findWordIdx_isSome_of_decomp _ (by decide) la none lb 0 hprev hpost
    · refine Or.inr (Or.inl ?_)
      rw [hdecomp]
      exact findWordIdx_isSome_of_decomp _ (by decide) la none lb 0 hprev hpost
    · refine Or.inr (Or.inr ?_)
      rw [hdecomp]
      exact findWordIdx_isSome_of_decomp _ (by decide) la none lb 0 hprev hpost
  obtain ⟨r, hr, hs, hl⟩ := loop_supported text (text.data.map Char.toLower) rfl hhit
  refine ⟨r, ?_, hs, hl⟩
  rw [fallback_dist_eq, hr]
  rfl

/-- C9 amended: the heuristic tier does guarantee the property — for every
text containing a supported distributor name as a whole word in any casing,
the heuristic extractor binds the distributor key to a slice of the original
text (original casing and spacing) that lowercases to a supported candidate
name; when the first whole-word candidate occurrence is an occurrence of
officer, the bound value is exactly that occurrence.  The model tiers
guarantee it only when they fall through to the heuristic (counterexample
above). -/
theorem C9_heuristic_original_casing :
    (∀ (text : String) (la lb sup : List Char),
      (sup = "officer".data ∨ sup = "ingram".data ∨ sup = "golden".data) →
      text.data.map Char.toLower = la ++ (sup ++ lb) →
      isWordOpt (lastPrevO none la) = false → isWordOpt lb.head? = false →
      ∃ rl : List Char,
        (fallback_extraction text).distribuidor = some (String.mk rl) ∧
        (∃ j n, rl = (text.data.drop j).take n) ∧
        (rl.map Char.toLower = "officer".data ∨ rl.map Char.toLower = "ingram".data ∨
         rl.map Char.toLower = "golden".data)) ∧
    (∀ (text : String) (la lb : List Char),
      text.data.map Char.toLower = la ++ ("officer".data ++ lb) →
      isWordOpt (lastPrevO none la) = false → isWordOpt lb.head? = false →
      wordHitFreeB "officer".data none la ("officer".data ++ lb) = true →
      (fallback_extraction text).distribuidor =
        some (String.mk ((text.data.drop la.length).take 7))) := by
  constructor
  · intro text la lb sup hsup hdecomp hprev hpost
    exact fallback_supported_occurrence text la lb sup hsup hdecomp hprev hpost
  · intro text la lb hdecomp hprev hpost hfree
    have hidx : findWordIdx "officer".data none (text.data.map Char.toLower) 0 =
        some la.length := by
      rw [hdecomp]
      rw [findWordIdx_skip "officer".data la none _ 0 hfree]
      have hat : wordAtB "officer".data (lastPrevO none la)
          ('o' :: ("fficer".data ++ lb)) = true :=
        wordAtB_pos "officer".data lb (lastPrevO none la) hprev hpost
      rw [show ("officer".data ++ lb) = 'o' :: ("fficer".data ++ lb) from rfl]
      rw [findWordIdx_cons_hit hat]
      rw [Nat.zero_add]
    have hslice : ((text.data.drop la.length).take 7).map Char.toLower = "officer".data := by
      obtain ⟨k, hk, hp⟩ := findWordIdx_mem "officer".data _ none 0 la.length hidx
      have hkj : k = la.length := by omega
      subst hkj
      rw [List.map_take, List.map_drop]
      exact take_len_of_isPrefixOf "officer".data _ hp
    have hstrip : stripL ((text.data.drop la.length).take 7) =
        (text.data.drop la.length).take 7 :=
      stripL_eq_of_no_space _ (no_space_of_lowers hslice (by decide))
    rw [fallback_dist_eq]
    rw [show distribuidores_conhecidos = "officer" ::
      ["ingram", "golden", "alcateia", "network1", "n1"] from rfl]
    rw [findDistribuidorLoop_hit "officer" _ text.data _ la.length hidx]
    rw [show ("officer" : String).data.length = 7 from rfl, hstrip]
    rfl

/-- C9 witness input: officer in mixed casing surrounded by punctuation. -/
def text_c9w : String := "quero falar com a OffiCer."

theorem C9_witness :
    (fallback_extraction text_c9w).distribuidor =
      some (String.mk ((text_c9w.data.drop 18).take 7)) := by
  have h := C9_heuristic_original_casing.2 text_c9w
    "quero falar com a ".data ".".data (by decide) (by decide) (by decide) (by decide)
  rw [show ("quero falar com a ".data : List Char).length = 18 from by decide] at h
  exact h

/-- C10: the heuristic distributor scan iterates the fixed candidate list in
the order officer, ingram, golden, alcateia, network1, n1 and takes the first
list entry with a whole-word occurrence, independent of where the names occur
in the text: any text containing both a supported and a known-unsupported
name as whole words yields a distributor that lowercases to a supported
name. -/
theorem C10_supported_wins_by_list_order :
    distribuidores_conhecidos = ["officer", "ingram", "golden", "alcateia", "network1", "n1"] ∧
    (∀ (text : String) (la lb la2 lb2 sup uns : List Char),
      (sup = "officer".data ∨ sup = "ingram".data ∨ sup = "golden".data) →
      (uns = "alcateia".data ∨ uns = "network1".data ∨ uns = "n1".data) →
      text.data.map Char.toLower = la ++ (sup ++ lb) →
      isWordOpt (lastPrevO none la) = false → isWordOpt lb.head? = false →
      text.data.map Char.toLower = la2 ++ (uns ++ lb2) →
      isWordOpt (lastPrevO none la2) = false → isWordOpt lb2.head? = false →
      ∃ rl : List Char,
        (fallback_extraction text).distribuidor = some (String.mk rl) ∧
        (rl.map Char.toLower = "officer".data ∨ rl.map Char.toLower = "ingram".data ∨
         rl.map Char.toLower = "golden".data)) := by
  refine ⟨rfl, ?_⟩
  intro text la lb la2 lb2 sup uns hsup _huns hdecomp hprev hpost _h2 _h3 _h4
  obtain ⟨r, hr, _, hl⟩ :=
    fallback_supported_occurrence text la lb sup hsup hdecomp hprev hpost
  exact ⟨r, hr, hl⟩

/-- C10 witness input: the unsupported name alcateia occurs before the
supported name ingram, yet the supported one is extracted. -/
def text_c10 : String := "a Alcateia indicou a Ingram"

theorem C10_witness :
    ∃ rl : List Char,
      (fallback_extraction text_c10).distribuidor = some (String.mk rl) ∧
      (rl.map Char.toLower = "officer".data ∨ rl.map Char.toLower = "ingram".data ∨
       rl.map Char.toLower = "golden".data) :=
  C10_supported_wins_by_list_order.2 text_c10
    "a alcateia indicou a ".data [] "a ".data " indicou a ingram".data
    "ingram".data "alcateia".data
    (Or.inr (Or.inl rfl)) (Or.inl rfl)
    (by decide) (by decide) (by decide) (by decide) (by decide) (by decide)

end Revend
